import Mathlib

/-!
Simulated clock of karagog/clock-go

A shallow embedding of `simulated/simulated.go`: the simulated clock, its
registry of active timers and the timer operations, and of the helper
`testutil.TryRead`, followed by the properties the specification states about
them.

Modelling conventions.

* A `time.Time` is its wall-clock reading: the integer `sec * 10^9 + nsec`, where
  `sec` is the number of seconds since January 1 of year 1 (an `int64`) and
  `nsec` the nanoseconds within the second; the zero `time.Time` is `0`.
  `Time.Add` and `Time.Before` follow the library code on `sec` and `nsec`;
  `Time.Add` pins the seconds at the ends of the `int64` range. The monotonic
  reading, which `Add` moves in step with the wall clock, is not represented, and
  a `time.Duration` is an integer number of nanoseconds.
* A `*simulatedTimer` is an index into the store `Clock.timers` of the timer
  objects whose `clock` field points to this clock; `NewTimer` allocates the
  next index.
* The channel `c` (made with capacity 1) is the content of its buffer:
  `none` when empty, `some v` when `v` is pending. A send on a full buffer
  parks the sender.
* `activeTimers` (a `map[*simulatedTimer]bool` whose values are all `true`) is
  the list of its keys; the list order is the order in which `range` visits them.
* `mu` is not represented: every operation is executed as one indivisible step,
  and `glog` calls are dropped.
* The `select` of `TryRead` races a receive against a wall-clock timeout; the
  function is modelled on the outcome of that race.
-/

namespace Simulated

/-- Values of `time.Time`, in nanoseconds. -/
abbrev Time := Int

/-- Values of `time.Duration`, in nanoseconds. -/
abbrev Duration := Int

/-- The largest `int64`. -/
def maxInt64 : Int := 9223372036854775807

/-- The smallest `int64`. -/
def minInt64 : Int := -9223372036854775808

/-- The library method `t.sec()`: seconds since January 1 of year 1. -/
def Time.sec (t : Time) : Int := t / 1000000000

/-- The library method `t.nsec()`: nanoseconds within the second, from 0 to
999999999. -/
def Time.nsec (t : Time) : Int := t % 1000000000

/-- The time with the given seconds and nanoseconds. -/
def Time.ofSecNsec (sec nsec : Int) : Time := sec * 1000000000 + nsec

/-- The value of an `int64` expression whose exact value is `x`. -/
def wrapInt64 (x : Int) : Int :=
  (x + 9223372036854775808) % 18446744073709551616 - 9223372036854775808

/-- The wall-clock branch of the library method `(*Time).addSec`, on `int64` values
as written: `sum := t.ext + d`, kept when `(sum > t.ext) == (d > 0)`, else the seconds
are pinned at `1<<63 - 1` or `-(1<<63 - 1)`. -/
def Time.addSecWrapped (sec d : Int) : Int :=
  let sum := wrapInt64 (sec + d)
  if (decide (sum > sec) == decide (d > 0)) = true then sum
  else if d > 0 then maxInt64
  else -maxInt64

/-- The method `(*Time).addSec` with the overflow test of `addSecWrapped` written
on the exact sum: the test fails exactly when the sum leaves the `int64` range
(`addSec_eq_addSecWrapped`). -/
def Time.addSec (sec d : Int) : Int :=
  let sum := sec + d
  if d > 0 ∧ sum > maxInt64 then maxInt64
  else if d < 0 ∧ sum < minInt64 then -maxInt64
  else sum

/-- The library call `t.Add(d)`: the nanoseconds are added with a carry into the
seconds, the seconds with `addSec`. -/
def Time.Add (t : Time) (d : Duration) : Time :=
  let dsec := Int.tdiv d 1000000000
  let nsec := Time.nsec t + Int.tmod d 1000000000
  if nsec ≥ 1000000000 then
    Time.ofSecNsec (Time.addSec (Time.sec t) (dsec + 1)) (nsec - 1000000000)
  else if nsec < 0 then
    Time.ofSecNsec (Time.addSec (Time.sec t) (dsec - 1)) (nsec + 1000000000)
  else
    Time.ofSecNsec (Time.addSec (Time.sec t) dsec) nsec

/-- The library call `t.Before(u)`. -/
def Time.Before (t u : Time) : Bool :=
  decide (Time.sec t < Time.sec u ∨ (Time.sec t = Time.sec u ∧ Time.nsec t < Time.nsec u))

/-- The time is one that a `time.Time` holds: its seconds are an `int64`. -/
def Time.inRange (t : Time) : Prop :=
  minInt64 * 1000000000 ≤ t ∧ maxInt64 * 1000000000 + 999999999 ≥ t

instance (t : Time) : Decidable (Time.inRange t) := by
  unfold Time.inRange; infer_instance

/-- The first instant of the last second that a `time.Time` holds. -/
def lastSecond : Time := 9223372036854775807000000000

/-- The struct `simulatedTimer` without its back-reference `clock`. -/
structure simulatedTimer where
  /-- buffer of `c chan time.Time`, capacity 1 -/
  c : Option Time
  /-- when the timer should fire -/
  deadline : Time
  /-- true if the timer has not yet fired -/
  active : Bool
deriving DecidableEq

/-- The zero value `&simulatedTimer{c: make(chan time.Time, 1), clock: s}`. -/
def simulatedTimer.zero : simulatedTimer :=
  { c := none, deadline := 0, active := false }

/-- The struct `Clock` together with the store of the timers it created. -/
structure Clock where
  now : Time
  /-- keys of `activeTimers map[*simulatedTimer]bool` -/
  activeTimers : List Nat
  /-- the timer objects, addressed by index -/
  timers : List simulatedTimer
deriving DecidableEq

/-- How a call ends: it returns a value, it panics, or it is parked on a send to
a full channel. Each case carries the state of the clock at that point. -/
inductive Exec (α : Type) where
  | done (ret : α) (s : Clock)
  | panic (s : Clock)
  | blocked (s : Clock)
deriving DecidableEq

/-- The clock state at the end of a call, however it ended. -/
def Exec.state {α : Type} : Exec α → Clock
  | .done _ s => s
  | .panic s => s
  | .blocked s => s

/-- Sequencing of calls: the continuation runs only after a normal return. -/
def Exec.bind {α β : Type} (x : Exec α) (f : α → Clock → Exec β) : Exec β :=
  match x with
  | .done a s => f a s
  | .panic s => .panic s
  | .blocked s => .blocked s

/-- Dereference of the timer pointer `t`. Pointers handed out by `NewTimer` are
below `timers.length`; an index beyond the store reads as the zero timer. -/
def Clock.timer (s : Clock) (t : Nat) : simulatedTimer :=
  s.timers.getD t simulatedTimer.zero

/-- Store through the timer pointer `t` (no effect for an index beyond the store). -/
def Clock.setTimer (s : Clock) (t : Nat) (tm : simulatedTimer) : Clock :=
  { s with timers := s.timers.set t tm }

/-- The constructor `NewClock(now)`. -/
def NewClock (now : Time) : Clock :=
  { now := now, activeTimers := [], timers := [] }

/-- The method `(*Clock).Now`. -/
def Now (s : Clock) : Time := s.now

/-- The method `(*simulatedTimer).shouldFire`. -/
def shouldFire (tm : simulatedTimer) (now : Time) : Bool :=
  !(Time.Before now tm.deadline)

/-- The method `(*simulatedTimer).stopNoLock`. -/
def stopNoLock (t : Nat) (s : Clock) : Bool × Clock :=
  let wasActive := (s.timer t).active
  let s1 := s.setTimer t { s.timer t with active := false }
  (wasActive, { s1 with activeTimers := s1.activeTimers.filter (fun u => u != t) })

/-- The method `(*simulatedTimer).fire`: the send `t.c <- t.deadline` parks the caller when
the buffer is full. -/
def fire (t : Nat) (s : Clock) : Exec Unit :=
  match (s.timer t).c with
  | some _ => .blocked s
  | none =>
    let s1 := s.setTimer t { s.timer t with c := some (s.timer t).deadline }
    .done () (stopNoLock t s1).2

/-- The method `(*simulatedTimer).Stop`. -/
def Stop (t : Nat) (s : Clock) : Exec Bool :=
  .done (stopNoLock t s).1 (stopNoLock t s).2

/-- The method `(*simulatedTimer).Reset`. -/
def Reset (t : Nat) (d : Duration) (s : Clock) : Exec Bool :=
  let wasActive := (s.timer t).active
  let now := s.now
  let newDeadline := Time.Add now d
  let s1 := s.setTimer t { s.timer t with active := true, deadline := newDeadline }
  if shouldFire (s1.timer t) now then
    (fire t s1).bind (fun _ s2 => .done wasActive s2)
  else if !wasActive then
    .done wasActive { s1 with activeTimers := s1.activeTimers.insert t }
  else
    .done wasActive s1

/-- The method `(*Clock).NewTimer`; the returned value is the new timer. -/
def NewTimer (d : Duration) (s : Clock) : Exec Nat :=
  let t := s.timers.length
  let s1 := { s with timers := s.timers ++ [simulatedTimer.zero] }
  (Reset t d s1).bind (fun _ s2 => .done t s2)

/-- The loop `for t := range s.activeTimers` of `Advance`, over the keys still to
be visited; a key deleted before it is reached is not produced. -/
def rangeActiveTimers : List Nat → Clock → Exec Unit
  | [], s => .done () s
  | t :: rest, s =>
    if t ∈ s.activeTimers then
      if shouldFire (s.timer t) s.now then
        (fire t s).bind (fun _ s1 => rangeActiveTimers rest s1)
      else
        rangeActiveTimers rest s
    else
      rangeActiveTimers rest s

/-- The method `(*Clock).Advance`: the panic on `d < 0` comes before the lock is
taken and before any field is written. -/
def Advance (d : Duration) (s : Clock) : Exec Unit :=
  if d < 0 then
    .panic s
  else
    let newTime := Time.Add s.now d
    let s1 := { s with now := newTime }
    rangeActiveTimers s1.activeTimers s1

/-- A receive from `t.C()` that does not wait (`select` with a `default` case):
the pending value, if any, is taken out of the buffer. -/
def tryReceive (t : Nat) (s : Clock) : Option Time × Clock :=
  ((s.timer t).c, s.setTimer t { s.timer t with c := none })

/-- The calls `Advance(d1); ...; Advance(dn)` in sequence. -/
def advanceAll : List Duration → Clock → Exec Unit
  | [], s => .done () s
  | d :: ds, s => (Advance d s).bind (fun _ s1 => advanceAll ds s1)

/-- The clock after `t.fire()` has completed. -/
def firedState (t : Nat) (s : Clock) : Clock :=
  (stopNoLock t (s.setTimer t { s.timer t with c := some (s.timer t).deadline })).2

/-- The clock once `Reset` has stored the flag and the new deadline. -/
def rearmed (t : Nat) (d : Duration) (s : Clock) : Clock :=
  s.setTimer t { c := (s.timer t).c, deadline := Time.Add s.now d, active := true }

/-- The value pending on the channel returned by `t.C()`, if any. -/
def C (t : Nat) (s : Clock) : Option Time := (s.timer t).c

/-- Timer `t` exists and is armed: its flag is set and the registry holds it. -/
def Clock.armed (s : Clock) (t : Nat) : Prop :=
  t < s.timers.length ∧ (s.timer t).active = true ∧ t ∈ s.activeTimers

/-- Timer `t` exists and is unarmed: its flag is clear and the registry does not
hold it. -/
def Clock.unarmed (s : Clock) (t : Nat) : Prop :=
  t < s.timers.length ∧ (s.timer t).active = false ∧ t ∉ s.activeTimers

/-- The data-model invariant: the registry holds only timers of this clock, and
a timer is in the registry exactly when its `active` flag is set. -/
def Clock.WellFormed (s : Clock) : Prop :=
  (∀ t ∈ s.activeTimers, t < s.timers.length) ∧
  ∀ t, t < s.timers.length → ((s.timer t).active = true ↔ t ∈ s.activeTimers)

instance (s : Clock) (t : Nat) : Decidable (s.armed t) := by
  unfold Clock.armed; infer_instance

instance (s : Clock) (t : Nat) : Decidable (s.unarmed t) := by
  unfold Clock.unarmed; infer_instance

instance (s : Clock) : Decidable s.WellFormed := by
  unfold Clock.WellFormed; infer_instance

/-- A clock at time 100 with two armed timers, due at 105 and at 120. -/
def sampleClock : Clock :=
  { now := 100, activeTimers := [1, 0],
    timers := [{ c := none, deadline := 105, active := true },
               { c := none, deadline := 120, active := true }] }

/-- After `NewTimer(1)`, `Advance(1)` and `Reset(1)` on a new clock at time 100, with
no receive: timer 0 is armed and the notification of its first fire is still pending. -/
def undrainedClock : Clock :=
  { now := 101, activeTimers := [0],
    timers := [{ c := some 101, deadline := 102, active := true }] }

/-- A clock at half a second into the last second that a `time.Time` holds, with
two armed timers due 0.1s and 0.2s later. -/
def lateClock : Clock :=
  { now := lastSecond + 500000000, activeTimers := [1, 0],
    timers := [{ c := none, deadline := lastSecond + 600000000, active := true },
               { c := none, deadline := lastSecond + 700000000, active := true }] }

/-- The clock `NewClock(lastSecond)` after `NewTimer(1s)`: the deadline is pinned at
`lastSecond`, so the timer has fired during the call. -/
def spentClock : Clock :=
  { now := lastSecond, activeTimers := [],
    timers := [{ c := some lastSecond, deadline := lastSecond, active := false }] }

/-- The clock `NewClock(lastSecond)` after `NewTimer(0.5s)`: the timer is armed. -/
def halfSecondClock : Clock :=
  { now := lastSecond, activeTimers := [0],
    timers := [{ c := none, deadline := lastSecond + 500000000, active := true }] }

/-- After `NewTimer(10)`, `NewTimer(1)`, `Advance(1)` and `Reset(1)` on the second
timer, on a new clock at time 100 and with no receive: timer 0 is armed with an empty
buffer, timer 1 is armed with the notification of its first fire still pending. -/
def shadowedClock : Clock :=
  { now := 101, activeTimers := [1, 0],
    timers := [{ c := none, deadline := 110, active := true },
               { c := some 101, deadline := 102, active := true }] }

/-- One step of a caller that never resets the timer: an `Advance(d)` call, or a
receive from the channel of the timer. -/
inductive Step where
  | advance (d : Duration)
  | receive
deriving DecidableEq

/-- The steps in sequence; receives are made on the channel of timer `t`. -/
def runSteps (t : Nat) : List Step → Clock → Exec Unit
  | [], s => .done () s
  | .advance d :: rest, s => (Advance d s).bind (fun _ s1 => runSteps t rest s1)
  | .receive :: rest, s => runSteps t rest (tryReceive t s).2

/-- Simulated time that the steps add up to. -/
def elapsed : List Step → Duration
  | [] => 0
  | .advance d :: rest => d + elapsed rest
  | .receive :: rest => elapsed rest

/-- Number of sends on the channel of timer `t` during the steps: the `Advance` calls
that found the buffer empty and left a value in it. -/
def sendCount (t : Nat) : List Step → Clock → Nat
  | [], _ => 0
  | .advance d :: rest, s =>
    match Advance d s with
    | .done _ s1 => (if C t s = none ∧ C t s1 ≠ none then 1 else 0) + sendCount t rest s1
    | .panic _ => 0
    | .blocked _ => 0
  | .receive :: rest, s => sendCount t rest (tryReceive t s).2

/-- Every registered timer exists and has an empty buffer. -/
def Clock.Drained (s : Clock) : Prop :=
  ∀ u ∈ s.activeTimers, u < s.timers.length ∧ C u s = none

instance (s : Clock) : Decidable s.Drained := by
  unfold Clock.Drained; infer_instance

/-- State of a timer `t` scheduled for `D` and never reset: before `D` it is
registered with deadline `D`, from `D` on it is out of the registry. -/
def Scheduled (t : Nat) (D : Time) (s : Clock) : Prop :=
  s.Drained ∧ t < s.timers.length ∧
    ((s.now < D ∧ t ∈ s.activeTimers ∧ (s.timer t).deadline = D) ∨
      (D ≤ s.now ∧ t ∉ s.activeTimers))

/-- A call made on the clock or on one of its timers; `receive` is a receive from the
channel of a timer that does not wait. -/
inductive Call where
  | newTimer (d : Duration)
  | advance (d : Duration)
  | reset (t : Nat) (d : Duration)
  | stop (t : Nat)
  | receive (t : Nat)
deriving DecidableEq

/-- The timer a call is made on was handed out by `NewTimer` before. -/
def Call.valid : Call → Clock → Prop
  | .newTimer _, _ => True
  | .advance _, _ => True
  | .reset t _, s => t < s.timers.length
  | .stop t, s => t < s.timers.length
  | .receive t, s => t < s.timers.length

instance (c : Call) (s : Clock) : Decidable (c.valid s) := by
  cases c <;> unfold Call.valid <;> infer_instance

/-- The effect of a call on the clock, the returned value dropped. -/
def Call.run : Call → Clock → Exec Unit
  | .newTimer d, s => (NewTimer d s).bind (fun _ s1 => .done () s1)
  | .advance d, s => Advance d s
  | .reset t d, s => (Reset t d s).bind (fun _ s1 => .done () s1)
  | .stop t, s => (Stop t s).bind (fun _ s1 => .done () s1)
  | .receive t, s => .done () (tryReceive t s).2

/-- The states a clock can be in between calls: the state made by `NewClock`, and
every state in which a call on such a state has returned. -/
inductive Reachable : Clock → Prop where
  | init (now : Time) : Reachable (NewClock now)
  | step {s s1 : Clock} (c : Call) :
      Reachable s → c.valid s → c.run s = .done () s1 → Reachable s1

/-- No registered timer is due. -/
def Clock.NoOverdue (s : Clock) : Prop :=
  ∀ t ∈ s.activeTimers, s.now < (s.timer t).deadline

instance (s : Clock) : Decidable s.NoOverdue := by
  unfold Clock.NoOverdue; infer_instance

/-- One round of the loop of the test of repeated fires: `Advance(d)`, a receive from
the channel of timer `t`, then `t.Reset(d)`. The value is what was received. -/
def cycle (t : Nat) (d : Duration) (s : Clock) : Exec (Option Time) :=
  (Advance d s).bind fun _ s1 =>
    (Reset t d (tryReceive t s1).2).bind fun _ s2 => .done (tryReceive t s1).1 s2

/-- The first `n` rounds, with the values received in them, in order. -/
def cycles (t : Nat) (d : Duration) : Nat → Clock → Exec (List (Option Time))
  | 0, s => .done [] s
  | n + 1, s =>
    (cycle t d s).bind fun v s1 =>
      (cycles t d n s1).bind fun vs s2 => .done (v :: vs) s2

/-- The library call `t.IsZero()`: the zero `time.Time` is `0`. -/
def Time.IsZero (t : Time) : Bool := decide (t = 0)

/-- The helper `testutil.TryRead`, as a function of what its `select` did: `some v`
when the case `fireTime = <-ch` ran and received `v`, `none` when the case
`<-time.After(timeout)` ran and `fireTime` kept its zero value. -/
def TryRead (selected : Option Time) : Time × Bool :=
  let fireTime : Time :=
    match selected with
    | some v => v
    | none => 0
  (fireTime, !(Time.IsZero fireTime))

/-! ## Times -/

/-- On `int64` seconds the overflow test on the exact sum is the test of the library
on the wrapped sum. -/
theorem addSec_eq_addSecWrapped (sec d : Int) (hs : minInt64 ≤ sec ∧ sec ≤ maxInt64)
    (hd : minInt64 ≤ d ∧ d ≤ maxInt64) : Time.addSec sec d = Time.addSecWrapped sec d := by
  unfold Time.addSec Time.addSecWrapped wrapInt64 maxInt64 minInt64 at *
  simp only []
  split_ifs <;> simp_all <;> omega

theorem tmod_bounds (d : Int) :
    -1000000000 < Int.tmod d 1000000000 ∧ Int.tmod d 1000000000 < 1000000000 := by
  constructor
  · have h1 := Int.tmod_lt_of_pos (-d) (show (0 : Int) < 1000000000 by decide)
    have h2 : Int.tmod (-d) 1000000000 = -(Int.tmod d 1000000000) := by
      rw [Int.tmod_def, Int.tmod_def, Int.neg_tdiv]; ring
    omega
  · exact Int.tmod_lt_of_pos d (by decide)

/-- The order of `Before` on seconds and nanoseconds is the order of the times. -/
@[simp] theorem Time.Before_eq (t u : Int) : Time.Before t u = decide (t < u) := by
  unfold Time.Before Time.sec Time.nsec
  congr 1
  apply propext
  constructor <;> intro h <;> omega

theorem Time.Add_zero (t : Int) : Time.Add t 0 = t := by
  unfold Time.Add Time.addSec Time.ofSecNsec Time.sec Time.nsec maxInt64 minInt64
  simp only [Int.zero_tdiv, Int.zero_tmod]
  split_ifs <;> (show @Eq Int _ _) <;> omega

/-- Inside the range of `time.Time` the call `t.Add(d)` is the exact sum. -/
theorem Time.Add_exact (t d : Int) (h : Time.inRange (t + d)) : Time.Add t d = t + d := by
  have hb := tmod_bounds d
  have hq := Int.tdiv_add_tmod d 1000000000
  unfold Time.inRange maxInt64 minInt64 at h
  unfold Time.Add Time.addSec Time.ofSecNsec Time.sec Time.nsec maxInt64 minInt64
  generalize Int.tdiv d 1000000000 = q at *
  generalize Int.tmod d 1000000000 = r at *
  simp only []
  split_ifs <;> (show @Eq Int _ _) <;> omega

/-! ## The timer store -/

@[simp] theorem setTimer_now (s : Clock) (t : Nat) (tm : simulatedTimer) :
    (s.setTimer t tm).now = s.now := rfl

@[simp] theorem setTimer_activeTimers (s : Clock) (t : Nat) (tm : simulatedTimer) :
    (s.setTimer t tm).activeTimers = s.activeTimers := rfl

@[simp] theorem setTimer_length (s : Clock) (t : Nat) (tm : simulatedTimer) :
    (s.setTimer t tm).timers.length = s.timers.length := by
  simp [Clock.setTimer]

theorem timer_setTimer_self (s : Clock) (t : Nat) (tm : simulatedTimer)
    (h : t < s.timers.length) : (s.setTimer t tm).timer t = tm := by
  simp [Clock.timer, Clock.setTimer, List.getD_eq_getElem?_getD, h]

theorem timer_setTimer_ne (s : Clock) (t u : Nat) (tm : simulatedTimer)
    (h : u ≠ t) : (s.setTimer t tm).timer u = s.timer u := by
  simp [Clock.timer, Clock.setTimer, List.getD_eq_getElem?_getD, List.getElem?_set_ne (Ne.symm h)]

theorem setTimer_same (s : Clock) (t : Nat) : s.setTimer t (s.timer t) = s := by
  cases s with
  | mk now act tms =>
    simp only [Clock.setTimer, Clock.timer, Clock.mk.injEq, true_and]
    apply List.ext_getElem?
    intro i
    by_cases hi : i = t
    · subst hi
      by_cases hlt : i < tms.length
      · simp [List.getElem?_set, hlt, List.getD_eq_getElem?_getD]
      · rw [List.set_eq_of_length_le (by omega)]
    · rw [List.getElem?_set_ne (Ne.symm hi)]

theorem timer_alloc (s : Clock) (u : Nat) :
    ({ s with timers := s.timers ++ [simulatedTimer.zero] } : Clock).timer u = s.timer u := by
  simp only [Clock.timer, List.getD_eq_getElem?_getD]
  rcases Nat.lt_trichotomy u s.timers.length with h | h | h
  · rw [List.getElem?_append_left h]
  · subst h
    simp
  · rw [List.getElem?_eq_none (by simp; omega), List.getElem?_eq_none (by omega)]

theorem timer_fresh (s : Clock) : s.timer s.timers.length = simulatedTimer.zero := by
  simp [Clock.timer, List.getD_eq_getElem?_getD]

theorem timers_ext (s s1 : Clock) (hlen : s1.timers.length = s.timers.length)
    (h : ∀ u, s1.timer u = s.timer u) : s1.timers = s.timers := by
  apply List.ext_getElem hlen
  intro i h1 h2
  have := h i
  simpa [Clock.timer, List.getD_eq_getElem?_getD, List.getElem?_eq_getElem h1,
    List.getElem?_eq_getElem h2] using this

/-! ## The helpers `stopNoLock` and `fire` -/

@[simp] theorem stopNoLock_now (t : Nat) (s : Clock) : (stopNoLock t s).2.now = s.now := rfl

@[simp] theorem stopNoLock_ret (t : Nat) (s : Clock) :
    (stopNoLock t s).1 = (s.timer t).active := rfl

@[simp] theorem stopNoLock_activeTimers (t : Nat) (s : Clock) :
    (stopNoLock t s).2.activeTimers = s.activeTimers.filter (fun u => u != t) := rfl

@[simp] theorem stopNoLock_length (t : Nat) (s : Clock) :
    (stopNoLock t s).2.timers.length = s.timers.length := by
  simp [stopNoLock, Clock.setTimer]

theorem stopNoLock_timer_self (t : Nat) (s : Clock) (h : t < s.timers.length) :
    (stopNoLock t s).2.timer t = { s.timer t with active := false } := by
  have := timer_setTimer_self s t { s.timer t with active := false } h
  simpa [stopNoLock, Clock.timer, Clock.setTimer] using this

theorem stopNoLock_timer_ne (t u : Nat) (s : Clock) (h : u ≠ t) :
    (stopNoLock t s).2.timer u = s.timer u := by
  have := timer_setTimer_ne s t u { s.timer t with active := false } h
  simpa [stopNoLock, Clock.timer, Clock.setTimer] using this

theorem not_mem_stopNoLock (t : Nat) (s : Clock) : t ∉ (stopNoLock t s).2.activeTimers := by
  simp [List.mem_filter]

theorem fire_of_empty (t : Nat) (s : Clock) (hc : (s.timer t).c = none) :
    fire t s = .done () (firedState t s) := by
  simp [fire, firedState, hc]

theorem fire_of_full (t : Nat) (s : Clock) (v : Time) (hc : (s.timer t).c = some v) :
    fire t s = .blocked s := by
  simp [fire, hc]

@[simp] theorem firedState_now (t : Nat) (s : Clock) : (firedState t s).now = s.now := rfl

@[simp] theorem firedState_activeTimers (t : Nat) (s : Clock) :
    (firedState t s).activeTimers = s.activeTimers.filter (fun u => u != t) := rfl

@[simp] theorem firedState_length (t : Nat) (s : Clock) :
    (firedState t s).timers.length = s.timers.length := by
  simp [firedState]

theorem firedState_timer_self (t : Nat) (s : Clock) (h : t < s.timers.length) :
    (firedState t s).timer t =
      { c := some (s.timer t).deadline, deadline := (s.timer t).deadline, active := false } := by
  unfold firedState
  rw [stopNoLock_timer_self _ _ (by simpa using h), timer_setTimer_self _ _ _ h]

theorem firedState_timer_ne (t u : Nat) (s : Clock) (h : u ≠ t) :
    (firedState t s).timer u = s.timer u := by
  unfold firedState
  rw [stopNoLock_timer_ne _ _ _ h, timer_setTimer_ne _ _ _ _ h]

/-! ## The calls `Reset` and `NewTimer` -/

theorem shouldFire_iff (tm : simulatedTimer) (now : Time) :
    shouldFire tm now = true ↔ tm.deadline ≤ now := by
  simp [shouldFire]

theorem Reset_eq (t : Nat) (d : Duration) (s : Clock) :
    Reset t d s =
      if shouldFire ((rearmed t d s).timer t) s.now = true then
        (fire t (rearmed t d s)).bind (fun _ s2 => .done (s.timer t).active s2)
      else if (s.timer t).active = true then
        .done (s.timer t).active (rearmed t d s)
      else
        .done (s.timer t).active
          { rearmed t d s with activeTimers := (rearmed t d s).activeTimers.insert t } := by
  unfold Reset rearmed
  by_cases ha : (s.timer t).active = true <;> simp [ha]

@[simp] theorem rearmed_now (t : Nat) (d : Duration) (s : Clock) :
    (rearmed t d s).now = s.now := rfl

@[simp] theorem rearmed_activeTimers (t : Nat) (d : Duration) (s : Clock) :
    (rearmed t d s).activeTimers = s.activeTimers := rfl

@[simp] theorem rearmed_length (t : Nat) (d : Duration) (s : Clock) :
    (rearmed t d s).timers.length = s.timers.length := by
  simp [rearmed]

theorem rearmed_timer_self (t : Nat) (d : Duration) (s : Clock) (ht : t < s.timers.length) :
    (rearmed t d s).timer t =
      { c := (s.timer t).c, deadline := Time.Add s.now d, active := true } :=
  timer_setTimer_self s t _ ht

theorem rearmed_timer_ne (t u : Nat) (d : Duration) (s : Clock) (h : u ≠ t) :
    (rearmed t d s).timer u = s.timer u :=
  timer_setTimer_ne s t u _ h

/-- A `Reset` whose new deadline is after `now` arms the timer. -/
theorem Reset_arms (t : Nat) (d : Duration) (s : Clock) (ht : t < s.timers.length)
    (hd : s.now < Time.Add s.now d) :
    ∃ s1, Reset t d s = .done (s.timer t).active s1 ∧ s1.now = s.now ∧
      s1.timers.length = s.timers.length ∧
      s1.timer t = { c := (s.timer t).c, deadline := Time.Add s.now d, active := true } ∧
      (∀ u, u ≠ t → s1.timer u = s.timer u) ∧
      s1.activeTimers =
        if (s.timer t).active = true then s.activeTimers else s.activeTimers.insert t := by
  have hnf : ¬ shouldFire ((rearmed t d s).timer t) s.now = true := by
    rw [rearmed_timer_self _ _ _ ht, shouldFire_iff]; exact not_le.mpr hd
  by_cases ha : (s.timer t).active = true
  · refine ⟨rearmed t d s, ?_, rfl, by simp, rearmed_timer_self _ _ _ ht,
      fun u hu => rearmed_timer_ne _ _ _ _ hu, by simp [ha]⟩
    rw [Reset_eq, if_neg hnf, if_pos ha]
  · refine ⟨{ rearmed t d s with activeTimers := (rearmed t d s).activeTimers.insert t },
      ?_, rfl, by simp, ?_, fun u hu => ?_, by simp [ha]⟩
    · rw [Reset_eq, if_neg hnf, if_neg ha]
    · exact rearmed_timer_self _ _ _ ht
    · exact rearmed_timer_ne _ _ _ _ hu

/-- A `Reset` whose new deadline is not after `now` fires the timer, when the buffer
is empty. -/
theorem Reset_fires (t : Nat) (d : Duration) (s : Clock) (ht : t < s.timers.length)
    (hd : Time.Add s.now d ≤ s.now) (hc : (s.timer t).c = none) :
    ∃ s1, Reset t d s = .done (s.timer t).active s1 ∧ s1.now = s.now ∧
      s1.timers.length = s.timers.length ∧
      s1.timer t =
        { c := some (Time.Add s.now d), deadline := Time.Add s.now d, active := false } ∧
      (∀ u, u ≠ t → s1.timer u = s.timer u) ∧
      s1.activeTimers = s.activeTimers.filter (fun u => u != t) := by
  have hsf : shouldFire ((rearmed t d s).timer t) s.now = true := by
    rw [rearmed_timer_self _ _ _ ht, shouldFire_iff]; exact hd
  have hc1 : ((rearmed t d s).timer t).c = none := by
    rw [rearmed_timer_self _ _ _ ht]; exact hc
  refine ⟨firedState t (rearmed t d s), ?_, rfl, by simp, ?_, fun u hu => ?_, by simp⟩
  · rw [Reset_eq, if_pos hsf, fire_of_empty _ _ hc1]; rfl
  · rw [firedState_timer_self _ _ (by simpa using ht), rearmed_timer_self _ _ _ ht]
  · rw [firedState_timer_ne _ _ _ hu, rearmed_timer_ne _ _ _ _ hu]

/-- A `Reset` whose new deadline is not after `now` is parked in `fire` when a
notification is pending. -/
theorem Reset_fires_full (t : Nat) (d : Duration) (s : Clock) (v : Time)
    (ht : t < s.timers.length) (hd : Time.Add s.now d ≤ s.now) (hc : (s.timer t).c = some v) :
    Reset t d s = .blocked (rearmed t d s) := by
  have hsf : shouldFire ((rearmed t d s).timer t) s.now = true := by
    rw [rearmed_timer_self _ _ _ ht, shouldFire_iff]; exact hd
  have hc1 : ((rearmed t d s).timer t).c = some v := by
    rw [rearmed_timer_self _ _ _ ht]; exact hc
  rw [Reset_eq, if_pos hsf, fire_of_full _ _ v hc1]; rfl

theorem NewTimer_arms (d : Duration) (s : Clock) (hd : s.now < Time.Add s.now d) :
    ∃ s1, NewTimer d s = .done s.timers.length s1 ∧ s1.now = s.now ∧
      s1.timers.length = s.timers.length + 1 ∧
      s1.timer s.timers.length =
        { c := none, deadline := Time.Add s.now d, active := true } ∧
      (∀ u, u ≠ s.timers.length → s1.timer u = s.timer u) ∧
      s1.activeTimers = s.activeTimers.insert s.timers.length := by
  obtain ⟨s1, hrun, hnow, hlen, hself, hne, hact⟩ :=
    Reset_arms s.timers.length d { s with timers := s.timers ++ [simulatedTimer.zero] }
      (by simp) hd
  rw [timer_alloc, timer_fresh] at hself hact hrun
  refine ⟨s1, ?_, hnow, by simpa using hlen, hself, fun u hu => ?_, by simpa [simulatedTimer.zero] using hact⟩
  · unfold NewTimer
    simp only [hrun]
    rfl
  · rw [hne u hu, timer_alloc]

theorem NewTimer_fires (d : Duration) (s : Clock) (hd : Time.Add s.now d ≤ s.now) :
    ∃ s1, NewTimer d s = .done s.timers.length s1 ∧ s1.now = s.now ∧
      s1.timers.length = s.timers.length + 1 ∧
      s1.timer s.timers.length =
        { c := some (Time.Add s.now d), deadline := Time.Add s.now d, active := false } ∧
      (∀ u, u ≠ s.timers.length → s1.timer u = s.timer u) ∧
      s1.activeTimers = s.activeTimers.filter (fun u => u != s.timers.length) := by
  obtain ⟨s1, hrun, hnow, hlen, hself, hne, hact⟩ :=
    Reset_fires s.timers.length d { s with timers := s.timers ++ [simulatedTimer.zero] }
      (by simp) hd (by rw [timer_alloc, timer_fresh]; rfl)
  rw [timer_alloc, timer_fresh] at hrun
  refine ⟨s1, ?_, hnow, by simpa using hlen, hself, fun u hu => ?_, hact⟩
  · unfold NewTimer
    simp only [hrun]
    rfl
  · rw [hne u hu, timer_alloc]

/-! ## The loop of `Advance` -/

theorem range_done (l : List Nat) : ∀ (s : Clock),
    (∀ u ∈ l, u ∈ s.activeTimers → u < s.timers.length) →
    (∀ u ∈ l, u ∈ s.activeTimers → shouldFire (s.timer u) s.now = true → (s.timer u).c = none) →
    ∃ s1, rangeActiveTimers l s = .done () s1 ∧ s1.now = s.now ∧
      s1.timers.length = s.timers.length ∧
      s1.activeTimers =
        s.activeTimers.filter (fun u => !(decide (u ∈ l) && shouldFire (s.timer u) s.now)) ∧
      ∀ u, s1.timer u =
        if u ∈ l ∧ u ∈ s.activeTimers ∧ shouldFire (s.timer u) s.now = true then
          { c := some (s.timer u).deadline, deadline := (s.timer u).deadline, active := false }
        else s.timer u := by
  induction l with
  | nil =>
    intro s _ _
    exact ⟨s, rfl, rfl, rfl, by simp, by simp⟩
  | cons t rest ih =>
    intro s hv he
    by_cases hmem : t ∈ s.activeTimers
    · by_cases hsf : shouldFire (s.timer t) s.now = true
      · have hc := he t (List.mem_cons_self _ _) hmem hsf
        have hlt := hv t (List.mem_cons_self _ _) hmem
        obtain ⟨s1, hrun, hnow, hlen, hact, htm⟩ := ih (firedState t s)
          (by
            intro u hu hu1
            simp only [firedState_activeTimers, List.mem_filter] at hu1
            simpa using hv u (List.mem_cons_of_mem _ hu) hu1.1)
          (by
            intro u hu hu1 hsf1
            simp only [firedState_activeTimers, List.mem_filter, bne_iff_ne] at hu1
            rw [firedState_timer_ne _ _ _ hu1.2] at hsf1 ⊢
            exact he u (List.mem_cons_of_mem _ hu) hu1.1 (by simpa using hsf1))
        refine ⟨s1, ?_, by simpa using hnow, by simpa using hlen, ?_, ?_⟩
        · simp [rangeActiveTimers, hmem, hsf, fire_of_empty _ _ hc, Exec.bind, hrun]
        · rw [hact, firedState_activeTimers, List.filter_filter]
          apply List.filter_congr
          intro u _
          by_cases hut : u = t
          · subst hut; simp [hsf]
          · simp [hut, firedState_timer_ne _ _ _ hut]
        · intro u
          rw [htm u]
          by_cases hut : u = t
          · subst hut
            simp [hmem, hsf, firedState_timer_self _ _ hlt]
          · simp [hut, firedState_timer_ne _ _ _ hut, List.mem_filter]
      · obtain ⟨s1, hrun, hnow, hlen, hact, htm⟩ := ih s
          (fun u hu => hv u (List.mem_cons_of_mem _ hu))
          (fun u hu => he u (List.mem_cons_of_mem _ hu))
        refine ⟨s1, ?_, hnow, hlen, ?_, ?_⟩
        · simp [rangeActiveTimers, hmem, hsf, hrun]
        · rw [hact]
          apply List.filter_congr
          intro u _
          by_cases hut : u = t
          · subst hut; simp [hsf]
          · simp [hut]
        · intro u
          rw [htm u]
          by_cases hut : u = t
          · subst hut; simp [hsf]
          · simp [hut]
    · obtain ⟨s1, hrun, hnow, hlen, hact, htm⟩ := ih s
        (fun u hu => hv u (List.mem_cons_of_mem _ hu))
        (fun u hu => he u (List.mem_cons_of_mem _ hu))
      refine ⟨s1, ?_, hnow, hlen, ?_, ?_⟩
      · simp [rangeActiveTimers, hmem, hrun]
      · rw [hact]
        apply List.filter_congr
        intro u hu
        have hut : u ≠ t := fun h => hmem (h ▸ hu)
        simp [hut]
      · intro u
        rw [htm u]
        by_cases hut : u = t
        · subst hut; simp [hmem]
        · simp [hut]

/-- The final state of the loop, however it ends, keeps `now`, and keeps a timer
that is not registered or not due as it is. -/
theorem range_untouched (t : Nat) (l : List Nat) : ∀ (s : Clock),
    (t ∉ s.activeTimers ∨ shouldFire (s.timer t) s.now = false) →
    (rangeActiveTimers l s).state.timer t = s.timer t ∧
      (rangeActiveTimers l s).state.now = s.now ∧
      (t ∈ (rangeActiveTimers l s).state.activeTimers ↔ t ∈ s.activeTimers) := by
  induction l with
  | nil => intro s _; exact ⟨rfl, rfl, Iff.rfl⟩
  | cons u rest ih =>
    intro s h
    by_cases hmem : u ∈ s.activeTimers
    · by_cases hsf : shouldFire (s.timer u) s.now = true
      · have hut : t ≠ u := by
          rintro rfl
          rcases h with h | h
          · exact h hmem
          · rw [hsf] at h; cases h
        cases hc : (s.timer u).c with
        | some v =>
          simp [rangeActiveTimers, hmem, hsf, fire_of_full _ _ v hc, Exec.bind, Exec.state]
        | none =>
          have h1 := ih (firedState u s) (by
            rcases h with h | h
            · left; simp [List.mem_filter, h]
            · right; rw [firedState_timer_ne _ _ _ hut]; exact h)
          simp only [rangeActiveTimers, hmem, hsf, if_true, fire_of_empty _ _ hc, Exec.bind]
          rw [h1.1, h1.2.1, h1.2.2, firedState_timer_ne _ _ _ hut]
          simp [List.mem_filter, hut]
      · simpa [rangeActiveTimers, hmem, hsf] using ih s h
    · simpa [rangeActiveTimers, hmem] using ih s h

/-- A loop that runs to its end has fired every registered due timer it visits. -/
theorem range_fires (t : Nat) (l : List Nat) : ∀ (s s1 : Clock),
    rangeActiveTimers l s = .done () s1 → t ∈ l → t ∈ s.activeTimers →
    t < s.timers.length → shouldFire (s.timer t) s.now = true →
    (s.timer t).c = none ∧
    s1.timer t =
      { c := some (s.timer t).deadline, deadline := (s.timer t).deadline, active := false } ∧
    t ∉ s1.activeTimers := by
  induction l with
  | nil => intro s s1 _ h; cases h
  | cons u rest ih =>
    intro s s1 hrun htl hta htv htd
    by_cases hmem : u ∈ s.activeTimers
    · by_cases hsf : shouldFire (s.timer u) s.now = true
      · cases hc : (s.timer u).c with
        | some v =>
          simp [rangeActiveTimers, hmem, hsf, fire_of_full _ _ v hc, Exec.bind] at hrun
        | none =>
          simp only [rangeActiveTimers, hmem, hsf, if_true, fire_of_empty _ _ hc, Exec.bind] at hrun
          by_cases hut : t = u
          · subst hut
            have h1 := range_untouched t rest (firedState t s)
              (Or.inl (by simp [List.mem_filter]))
            rw [hrun] at h1
            simp only [Exec.state] at h1
            refine ⟨hc, ?_, ?_⟩
            · rw [h1.1, firedState_timer_self _ _ htv]
            · rw [h1.2.2]; simp [List.mem_filter]
          · have htr : t ∈ rest := by
              rcases List.mem_cons.1 htl with h | h
              · exact absurd h hut
              · exact h
            have h1 := ih (firedState u s) s1 hrun htr
              (by simp [List.mem_filter, hta, hut]) (by simpa using htv)
              (by rw [firedState_timer_ne _ _ _ hut]; exact htd)
            rw [firedState_timer_ne _ _ _ hut] at h1
            exact h1
      · have hut : t ≠ u := by rintro rfl; exact hsf htd
        have htr : t ∈ rest := by
          rcases List.mem_cons.1 htl with h | h
          · exact absurd h hut
          · exact h
        simp only [rangeActiveTimers, hmem, hsf, if_true] at hrun
        exact ih s s1 (by simpa using hrun) htr hta htv htd
    · have hut : t ≠ u := by rintro rfl; exact hmem hta
      have htr : t ∈ rest := by
        rcases List.mem_cons.1 htl with h | h
        · exact absurd h hut
        · exact h
      simp only [rangeActiveTimers, hmem] at hrun
      exact ih s s1 (by simpa using hrun) htr hta htv htd

/-! ## The call `Advance` -/

theorem Advance_done (d : Duration) (s : Clock) (hd : 0 ≤ d)
    (hv : ∀ u ∈ s.activeTimers, u < s.timers.length)
    (he : ∀ u ∈ s.activeTimers, (s.timer u).deadline ≤ Time.Add s.now d → (s.timer u).c = none) :
    ∃ s1, Advance d s = .done () s1 ∧ s1.now = Time.Add s.now d ∧
      s1.timers.length = s.timers.length ∧
      s1.activeTimers =
        s.activeTimers.filter (fun u => decide (Time.Add s.now d < (s.timer u).deadline)) ∧
      ∀ u, s1.timer u =
        if u ∈ s.activeTimers ∧ (s.timer u).deadline ≤ Time.Add s.now d then
          { c := some (s.timer u).deadline, deadline := (s.timer u).deadline, active := false }
        else s.timer u := by
  obtain ⟨s1, hrun, hnow, hlen, hact, htm⟩ :=
    range_done s.activeTimers { s with now := Time.Add s.now d }
      (fun u hu _ => hv u hu)
      (fun u hu _ hsf => he u hu ((shouldFire_iff _ _).1 hsf))
  refine ⟨s1, ?_, hnow, hlen, ?_, ?_⟩
  · unfold Advance
    rw [if_neg (not_lt.mpr hd)]
    exact hrun
  · rw [hact]
    apply List.filter_congr
    intro u hu
    simp [hu, shouldFire, Clock.timer]
  · intro u
    rw [htm u]
    by_cases hu : u ∈ s.activeTimers
    · simp [hu, shouldFire, Clock.timer]
    · simp [hu, Clock.timer]

theorem Advance_neg (d : Duration) (s : Clock) (hd : d < 0) : Advance d s = .panic s := by
  unfold Advance
  rw [if_pos hd]

theorem Advance_untouched (t : Nat) (d : Duration) (s : Clock)
    (h : t ∉ s.activeTimers ∨ Time.Add s.now d < (s.timer t).deadline) :
    (Advance d s).state.timer t = s.timer t ∧
      (t ∈ (Advance d s).state.activeTimers ↔ t ∈ s.activeTimers) := by
  unfold Advance
  by_cases hd : d < 0
  · rw [if_pos hd]; exact ⟨rfl, Iff.rfl⟩
  · rw [if_neg hd]
    have h1 := range_untouched t s.activeTimers { s with now := Time.Add s.now d } (by
      rcases h with h | h
      · exact Or.inl h
      · right
        simpa [shouldFire, Clock.timer] using h)
    exact ⟨h1.1, h1.2.2⟩

theorem Advance_fires (t : Nat) (d : Duration) (s s1 : Clock)
    (hrun : Advance d s = .done () s1) (hta : t ∈ s.activeTimers) (htv : t < s.timers.length)
    (htd : (s.timer t).deadline ≤ Time.Add s.now d) :
    (s.timer t).c = none ∧
    s1.timer t =
      { c := some (s.timer t).deadline, deadline := (s.timer t).deadline, active := false } ∧
    t ∉ s1.activeTimers := by
  unfold Advance at hrun
  by_cases hd : d < 0
  · rw [if_pos hd] at hrun; cases hrun
  · rw [if_neg hd] at hrun
    exact range_fires t s.activeTimers { s with now := Time.Add s.now d } s1 hrun hta hta htv
      (by simpa [shouldFire, Clock.timer] using htd)

/-- The order in which `range` visits the registry does not matter to an `Advance`
that returns: on a clock that differs only in the order of the keys, the call
returns as well, with the same time, the same timers and the same set of keys. -/
theorem Advance_perm (d : Duration) (s p s1 : Clock) (hnow : p.now = s.now)
    (htm : p.timers = s.timers) (hperm : p.activeTimers.Perm s.activeTimers)
    (hv : ∀ u ∈ s.activeTimers, u < s.timers.length) (hrun : Advance d s = .done () s1) :
    ∃ p1, Advance d p = .done () p1 ∧ p1.now = s1.now ∧ p1.timers = s1.timers ∧
      p1.activeTimers.Perm s1.activeTimers := by
  have hd : 0 ≤ d := by
    by_contra hneg
    rw [Advance_neg d s (not_le.mp hneg)] at hrun
    cases hrun
  have htimer : ∀ u, p.timer u = s.timer u := fun u => by simp [Clock.timer, htm]
  have he : ∀ u ∈ s.activeTimers, (s.timer u).deadline ≤ Time.Add s.now d → (s.timer u).c = none :=
    fun u hu hdue => (Advance_fires u d s s1 hrun hu (hv u hu) hdue).1
  obtain ⟨s2, hrun2, hnow2, hlen2, hact2, htm2⟩ := Advance_done d s hd hv he
  rw [hrun] at hrun2
  cases hrun2
  obtain ⟨p1, hrunp, hnowp, hlenp, hactp, htmp⟩ := Advance_done d p hd
    (fun u hu => by rw [htm]; exact hv u (hperm.mem_iff.1 hu))
    (fun u hu hdue => by
      rw [htimer u] at hdue ⊢
      rw [hnow] at hdue
      exact he u (hperm.mem_iff.1 hu) hdue)
  refine ⟨p1, hrunp, by rw [hnowp, hnow2, hnow], ?_, ?_⟩
  · apply timers_ext
    · rw [hlenp, hlen2, htm]
    · intro u
      rw [htmp u, htm2 u, htimer u, hnow]
      simp only [hperm.mem_iff]
  · rw [hactp, hact2]
    have : (fun u => decide (Time.Add p.now d < (p.timer u).deadline)) =
        (fun u => decide (Time.Add s.now d < (s.timer u).deadline)) := by
      funext u; rw [htimer u, hnow]
    rw [this]
    exact hperm.filter _

theorem Advance_bare (t : Time) (d : Duration) (hd : 0 ≤ d) :
    Advance d { now := t, activeTimers := [], timers := [] } =
      .done () { now := Time.Add t d, activeTimers := [], timers := [] } := by
  simp [Advance, not_lt.mpr hd, rangeActiveTimers]

theorem Time.inRange_between (a b x : Int) (ha : Time.inRange a) (hb : Time.inRange b)
    (hax : a ≤ x) (hxb : x ≤ b) : Time.inRange x := by
  unfold Time.inRange at *
  exact ⟨le_trans ha.1 hax, le_trans hxb hb.2⟩

theorem sum_nonneg_of_nonneg (ds : List Int) (h : ∀ x ∈ ds, 0 ≤ x) : 0 ≤ ds.sum := by
  induction ds with
  | nil => simp
  | cons d ds ih =>
    have h1 : 0 ≤ d := h d (List.mem_cons_self _ _)
    have h2 := ih (fun x hx => h x (List.mem_cons_of_mem _ hx))
    rw [List.sum_cons]
    exact add_nonneg h1 h2

theorem advanceAll_bare (ds : List Duration) : ∀ (t : Time), (∀ x ∈ ds, 0 ≤ x) →
    Time.inRange t → Time.inRange (t + ds.sum) →
    advanceAll ds { now := t, activeTimers := [], timers := [] } =
      .done () { now := t + ds.sum, activeTimers := [], timers := [] } := by
  induction ds with
  | nil => intro t _ _ _; simp [advanceAll]
  | cons d ds ih =>
    intro t h ht hsum
    have hd : 0 ≤ d := h d (List.mem_cons_self _ _)
    have hrest : ∀ x ∈ ds, 0 ≤ x := fun x hx => h x (List.mem_cons_of_mem _ hx)
    have hs := sum_nonneg_of_nonneg ds hrest
    rw [List.sum_cons] at hsum
    have hmid : Time.inRange (t + d) :=
      Time.inRange_between t (t + (d + ds.sum)) (t + d) ht hsum (by linarith) (by linarith)
    simp only [advanceAll, Advance_bare t d hd, Exec.bind, Time.Add_exact t d hmid]
    rw [ih (t + d) hrest hmid (by rw [add_assoc]; exact hsum)]
    simp [add_assoc]

theorem advanceAll_untouched (t : Nat) (ds : List Duration) : ∀ (s : Clock),
    t ∉ s.activeTimers →
    (advanceAll ds s).state.timer t = s.timer t ∧ t ∉ (advanceAll ds s).state.activeTimers := by
  induction ds with
  | nil => intro s h; exact ⟨rfl, h⟩
  | cons d ds ih =>
    intro s h
    have h1 := Advance_untouched t d s (Or.inl h)
    simp only [advanceAll]
    cases hrun : Advance d s with
    | done r s1 =>
      rw [hrun] at h1
      simp only [Exec.state] at h1
      have h2 := ih s1 (by rw [h1.2]; exact h)
      simp only [Exec.bind]
      exact ⟨by rw [h2.1, h1.1], h2.2⟩
    | panic s1 =>
      rw [hrun] at h1
      simp only [Exec.state] at h1
      simp only [Exec.bind, Exec.state]
      exact ⟨h1.1, by rw [h1.2]; exact h⟩
    | blocked s1 =>
      rw [hrun] at h1
      simp only [Exec.state] at h1
      simp only [Exec.bind, Exec.state]
      exact ⟨h1.1, by rw [h1.2]; exact h⟩

/-! ## A timer that is never reset -/

theorem elapsed_nonneg (steps : List Step) (h : ∀ x, Step.advance x ∈ steps → 0 ≤ x) :
    0 ≤ elapsed steps := by
  induction steps with
  | nil => exact le_rfl
  | cons st rest ih =>
    have hr : ∀ x, Step.advance x ∈ rest → 0 ≤ x := fun x hx => h x (List.mem_cons_of_mem _ hx)
    cases st with
    | advance d =>
      have hd : 0 ≤ d := h d (List.mem_cons_self _ _)
      have := ih hr
      show 0 ≤ d + elapsed rest
      linarith
    | receive => exact ih hr

theorem Advance_scheduled (t : Nat) (D : Time) (s : Clock) (e : Duration)
    (h : Scheduled t D s) (he : 0 ≤ e) (hx : Time.inRange (s.now + e)) :
    ∃ s1, Advance e s = .done () s1 ∧ Scheduled t D s1 ∧ s1.now = s.now + e ∧
      (s.now < D → D ≤ s.now + e → C t s = none ∧ C t s1 = some D) ∧
      (¬ (s.now < D ∧ D ≤ s.now + e) → C t s1 = C t s) := by
  obtain ⟨hdr, htv, hph⟩ := h
  obtain ⟨s1, hrun, hnow, hlen, hact, htm⟩ := Advance_done e s he
    (fun u hu => (hdr u hu).1) (fun u hu _ => (hdr u hu).2)
  rw [Time.Add_exact s.now e hx] at hnow hact htm
  have hdr1 : s1.Drained := by
    intro u hu
    rw [hact, List.mem_filter] at hu
    have hlt : s.now + e < (s.timer u).deadline := by simpa using hu.2
    have h1 := htm u
    rw [if_neg (fun hh => absurd hh.2 (not_le.mpr hlt))] at h1
    exact ⟨by rw [hlen]; exact (hdr u hu.1).1, by rw [C, h1]; exact (hdr u hu.1).2⟩
  refine ⟨s1, hrun, ⟨hdr1, by rw [hlen]; exact htv, ?_⟩, hnow, ?_, ?_⟩
  · rcases hph with ⟨hlt, hmem, hdl⟩ | ⟨hle, hnm⟩
    · by_cases hdue : D ≤ s.now + e
      · right
        refine ⟨by rw [hnow]; exact hdue, ?_⟩
        rw [hact, List.mem_filter]
        rintro ⟨_, h2⟩
        have h3 : s.now + e < (s.timer t).deadline := by simpa using h2
        rw [hdl] at h3
        exact absurd hdue (not_le.mpr h3)
      · left
        have h3 : s.now + e < D := not_le.mp hdue
        have h1 := htm t
        rw [if_neg (fun hh => absurd (hdl ▸ hh.2) hdue)] at h1
        refine ⟨by rw [hnow]; exact h3, ?_, by rw [h1]; exact hdl⟩
        rw [hact, List.mem_filter]
        exact ⟨hmem, by simpa [hdl] using h3⟩
    · right
      refine ⟨by rw [hnow]; linarith, ?_⟩
      rw [hact, List.mem_filter]
      exact fun hh => hnm hh.1
  · intro hlt hdue
    rcases hph with ⟨_, hmem, hdl⟩ | ⟨hle, _⟩
    · have h1 := htm t
      rw [if_pos ⟨hmem, by rw [hdl]; exact hdue⟩] at h1
      exact ⟨(hdr t hmem).2, by rw [C, h1, hdl]⟩
    · exact absurd hlt (not_lt.mpr hle)
  · intro hn
    have h1 := htm t
    rcases hph with ⟨hlt, hmem, hdl⟩ | ⟨hle, hnm⟩
    · rw [if_neg (fun hh => hn ⟨hlt, hdl ▸ hh.2⟩)] at h1
      rw [C, h1]; rfl
    · rw [if_neg (fun hh => hnm hh.1)] at h1
      rw [C, h1]; rfl

theorem tryReceive_scheduled (t : Nat) (D : Time) (s : Clock) (h : Scheduled t D s) :
    Scheduled t D (tryReceive t s).2 ∧ (tryReceive t s).2.now = s.now := by
  obtain ⟨hdr, htv, hph⟩ := h
  have hself : (tryReceive t s).2.timer t = { s.timer t with c := none } :=
    timer_setTimer_self s t _ htv
  have hne : ∀ u, u ≠ t → (tryReceive t s).2.timer u = s.timer u :=
    fun u hu => timer_setTimer_ne s t u _ hu
  have hact : (tryReceive t s).2.activeTimers = s.activeTimers := rfl
  have hlen : (tryReceive t s).2.timers.length = s.timers.length := by
    simp [tryReceive]
  refine ⟨⟨?_, by rw [hlen]; exact htv, ?_⟩, rfl⟩
  · intro u hu
    rw [hact] at hu
    refine ⟨by rw [hlen]; exact (hdr u hu).1, ?_⟩
    by_cases hut : u = t
    · rw [hut, C, hself]
    · rw [C, hne u hut]; exact (hdr u hu).2
  · rw [hact]
    rcases hph with ⟨hlt, hmem, hdl⟩ | hph
    · exact Or.inl ⟨hlt, hmem, by rw [hself]; exact hdl⟩
    · exact Or.inr hph

theorem runSteps_scheduled (t : Nat) (D : Time) (steps : List Step) : ∀ (s : Clock),
    Scheduled t D s → (∀ x, Step.advance x ∈ steps → 0 ≤ x) →
    Time.inRange s.now → Time.inRange (s.now + elapsed steps) →
    ∃ s1, runSteps t steps s = .done () s1 ∧ Scheduled t D s1 ∧
      s1.now = s.now + elapsed steps ∧
      sendCount t steps s = if s.now < D ∧ D ≤ s.now + elapsed steps then 1 else 0 := by
  induction steps with
  | nil =>
    intro s h _ _ _
    refine ⟨s, rfl, h, by simp [elapsed], ?_⟩
    have : ¬ (s.now < D ∧ D ≤ s.now + elapsed []) := by
      rintro ⟨h1, h2⟩
      simp [elapsed] at h2
      exact absurd h1 (not_lt.mpr h2)
    rw [if_neg this]; rfl
  | cons st rest ih =>
    intro s h hnn hr0 hr1
    have hr : ∀ x, Step.advance x ∈ rest → 0 ≤ x :=
      fun x hx => hnn x (List.mem_cons_of_mem _ hx)
    have hel := elapsed_nonneg rest hr
    cases st with
    | advance e =>
      have he : 0 ≤ e := hnn e (List.mem_cons_self _ _)
      have hr2 : Time.inRange (s.now + (e + elapsed rest)) := hr1
      have hmid : Time.inRange (s.now + e) :=
        Time.inRange_between s.now (s.now + (e + elapsed rest)) (s.now + e) hr0 hr2
          (by linarith) (by linarith)
      obtain ⟨s1, hrun, hsch, hnow, hsend, hkeep⟩ := Advance_scheduled t D s e h he hmid
      obtain ⟨s2, hrun2, hsch2, hnow2, hcnt⟩ := ih s1 hsch hr (by rw [hnow]; exact hmid)
        (by rw [hnow, add_assoc]; exact hr2)
      refine ⟨s2, ?_, hsch2, ?_, ?_⟩
      · simp only [runSteps, hrun, Exec.bind]; exact hrun2
      · rw [hnow2, hnow]; simp [elapsed, add_assoc]
      · simp only [sendCount, hrun, hcnt, hnow, elapsed]
        by_cases hx : s.now < D ∧ D ≤ s.now + e
        · obtain ⟨hc0, hc1⟩ := hsend hx.1 hx.2
          have h1 : ¬ (s.now + e < D ∧ D ≤ s.now + e + elapsed rest) :=
            fun hh => absurd hx.2 (not_le.mpr hh.1)
          have h2 : s.now < D ∧ D ≤ s.now + (e + elapsed rest) := ⟨hx.1, by linarith [hx.2]⟩
          rw [if_neg h1, if_pos h2, if_pos ⟨hc0, by rw [hc1]; simp⟩]
        · have hc := hkeep hx
          have h0 : ¬ (C t s = none ∧ C t s1 ≠ none) := by
            rw [hc]; exact fun hh => hh.2 hh.1
          rw [if_neg h0, Nat.zero_add]
          by_cases hlt : s.now < D
          · have hlt2 : s.now + e < D := not_le.mp (fun hh => hx ⟨hlt, hh⟩)
            by_cases hy : D ≤ s.now + e + elapsed rest
            · rw [if_pos ⟨hlt2, hy⟩, if_pos ⟨hlt, by linarith⟩]
            · rw [if_neg (fun hh => hy hh.2), if_neg (fun hh => hy (by linarith [hh.2]))]
          · have hge : D ≤ s.now := not_lt.mp hlt
            rw [if_neg (fun hh => absurd hh.1 (not_lt.mpr (by linarith))),
              if_neg (fun hh => hlt hh.1)]
    | receive =>
      obtain ⟨hsch, hnow⟩ := tryReceive_scheduled t D s h
      obtain ⟨s2, hrun2, hsch2, hnow2, hcnt⟩ := ih _ hsch hr (by rw [hnow]; exact hr0)
        (by rw [hnow]; exact hr1)
      refine ⟨s2, hrun2, hsch2, by rw [hnow2, hnow]; rfl, ?_⟩
      simp only [sendCount, elapsed]
      rw [hcnt, hnow]

theorem NewTimer_scheduled (s : Clock) (d : Duration) (hs : s.Drained) (hd : 0 < d)
    (hx : Time.inRange (s.now + d)) :
    ∃ s0, NewTimer d s = .done s.timers.length s0 ∧ s0.now = s.now ∧
      Scheduled s.timers.length (s.now + d) s0 := by
  have hA := Time.Add_exact s.now d hx
  obtain ⟨s0, hrun, hnow, hlen, hself, hne, hact⟩ := NewTimer_arms d s (by
    rw [hA]
    linarith)
  rw [hA] at hself
  refine ⟨s0, hrun, hnow, ?_, by omega, Or.inl ⟨?_, ?_, by rw [hself]⟩⟩
  · intro u hu
    rw [hact, List.mem_insert_iff] at hu
    rcases hu with h | h
    · rw [h, C, hself]; exact ⟨by omega, rfl⟩
    · have hlt := (hs u h).1
      rw [C, hne u (by omega)]
      exact ⟨by omega, (hs u h).2⟩
  · rw [hnow]; linarith
  · rw [hact]; exact List.mem_insert_self _ _

/-! ## The states between calls -/

/-- What a returning `Advance` has done, on a clock whose registry holds only
timers of the clock. -/
theorem Advance_done_inv (d : Duration) (s s1 : Clock)
    (hv : ∀ u ∈ s.activeTimers, u < s.timers.length) (hrun : Advance d s = .done () s1) :
    0 ≤ d ∧ s1.now = Time.Add s.now d ∧ s1.timers.length = s.timers.length ∧
      s1.activeTimers =
        s.activeTimers.filter (fun u => decide (Time.Add s.now d < (s.timer u).deadline)) ∧
      ∀ u, s1.timer u =
        if u ∈ s.activeTimers ∧ (s.timer u).deadline ≤ Time.Add s.now d then
          { c := some (s.timer u).deadline, deadline := (s.timer u).deadline, active := false }
        else s.timer u := by
  have hd : 0 ≤ d := by
    by_contra hneg
    rw [Advance_neg d s (not_le.mp hneg)] at hrun
    cases hrun
  have he : ∀ u ∈ s.activeTimers, (s.timer u).deadline ≤ Time.Add s.now d → (s.timer u).c = none :=
    fun u hu hdue => (Advance_fires u d s s1 hrun hu (hv u hu) hdue).1
  obtain ⟨s2, hrun2, h⟩ := Advance_done d s hd hv he
  rw [hrun] at hrun2
  cases hrun2
  exact ⟨hd, h⟩

/-- What a returning `Reset` has done to an existing timer. -/
theorem Reset_done_inv (t : Nat) (d : Duration) (s s1 : Clock) (r : Bool)
    (ht : t < s.timers.length) (hrun : Reset t d s = .done r s1) :
    r = (s.timer t).active ∧ s1.now = s.now ∧ s1.timers.length = s.timers.length ∧
      (∀ u, u ≠ t → s1.timer u = s.timer u) ∧
      ((s.now < Time.Add s.now d ∧ s1.timer t = { c := (s.timer t).c, deadline := Time.Add s.now d, active := true } ∧
          s1.activeTimers =
            if (s.timer t).active = true then s.activeTimers else s.activeTimers.insert t) ∨
        (Time.Add s.now d ≤ s.now ∧ (s.timer t).c = none ∧
          s1.timer t = { c := some (Time.Add s.now d), deadline := Time.Add s.now d, active := false } ∧
          s1.activeTimers = s.activeTimers.filter (fun u => u != t))) := by
  by_cases hd : s.now < Time.Add s.now d
  · obtain ⟨s2, hrun2, hnow, hlen, hself, hne, hact⟩ := Reset_arms t d s ht hd
    rw [hrun] at hrun2
    cases hrun2
    exact ⟨rfl, hnow, hlen, hne, Or.inl ⟨hd, hself, hact⟩⟩
  · have hd1 : Time.Add s.now d ≤ s.now := not_lt.mp hd
    cases hc : (s.timer t).c with
    | some v =>
      rw [Reset_fires_full t d s v ht hd1 hc] at hrun
      cases hrun
    | none =>
      obtain ⟨s2, hrun2, hnow, hlen, hself, hne, hact⟩ := Reset_fires t d s ht hd1 hc
      rw [hrun] at hrun2
      cases hrun2
      exact ⟨rfl, hnow, hlen, hne, Or.inr ⟨hd1, rfl, hself, hact⟩⟩

theorem tryReceive_timer_self (t : Nat) (s : Clock) (ht : t < s.timers.length) :
    (tryReceive t s).2.timer t = { s.timer t with c := none } :=
  timer_setTimer_self s t _ ht

theorem tryReceive_timer_ne (t u : Nat) (s : Clock) (h : u ≠ t) :
    (tryReceive t s).2.timer u = s.timer u :=
  timer_setTimer_ne s t u _ h

theorem NewClock_inv (now : Time) : (NewClock now).WellFormed ∧ (NewClock now).NoOverdue := by
  refine ⟨⟨?_, ?_⟩, ?_⟩
  · intro t ht; cases ht
  · intro t ht; simp [NewClock] at ht
  · intro t ht; cases ht

theorem NewTimer_inv (d : Duration) (s s1 : Clock) (t : Nat) (hwf : s.WellFormed)
    (hno : s.NoOverdue) (hrun : NewTimer d s = .done t s1) :
    s1.WellFormed ∧ s1.NoOverdue := by
  by_cases hd : s.now < Time.Add s.now d
  · obtain ⟨s2, hrun2, hnow, hlen, hself, hne, hact⟩ := NewTimer_arms d s hd
    rw [hrun] at hrun2
    cases hrun2
    have hmem : ∀ u, u ∈ s1.activeTimers ↔ u = s.timers.length ∨ u ∈ s.activeTimers := by
      intro u; rw [hact, List.mem_insert_iff]
    refine ⟨⟨?_, ?_⟩, ?_⟩
    · intro u hu
      rcases (hmem u).1 hu with h | h
      · omega
      · have := hwf.1 u h; omega
    · intro u hu
      by_cases hut : u = s.timers.length
      · rw [hut, hself, hmem]; simp
      · rw [hne u hut, hmem, hwf.2 u (by omega)]
        simp [hut]
    · intro u hu
      rw [hnow]
      rcases (hmem u).1 hu with h | h
      · rw [h, hself]
        exact hd
      · have := hwf.1 u h
        rw [hne u (by omega)]
        exact hno u h
  · obtain ⟨s2, hrun2, hnow, hlen, hself, hne, hact⟩ := NewTimer_fires d s (not_lt.mp hd)
    rw [hrun] at hrun2
    cases hrun2
    have hmem : ∀ u, u ∈ s1.activeTimers ↔ u ∈ s.activeTimers ∧ u ≠ s.timers.length := by
      intro u; rw [hact, List.mem_filter]; simp
    refine ⟨⟨?_, ?_⟩, ?_⟩
    · intro u hu
      have := hwf.1 u ((hmem u).1 hu).1
      omega
    · intro u hu
      by_cases hut : u = s.timers.length
      · rw [hut, hself, hmem]; simp
      · rw [hne u hut, hmem, hwf.2 u (by omega)]
        simp [hut]
    · intro u hu
      rw [hnow, hne u ((hmem u).1 hu).2]
      exact hno u ((hmem u).1 hu).1

theorem Advance_inv (d : Duration) (s s1 : Clock) (hwf : s.WellFormed)
    (hrun : Advance d s = .done () s1) : s1.WellFormed ∧ s1.NoOverdue := by
  obtain ⟨_, hnow, hlen, hact, htm⟩ := Advance_done_inv d s s1 hwf.1 hrun
  have hmem : ∀ u, u ∈ s1.activeTimers ↔
      u ∈ s.activeTimers ∧ Time.Add s.now d < (s.timer u).deadline := by
    intro u; rw [hact, List.mem_filter]; simp
  have hkeep : ∀ u, u ∈ s1.activeTimers → s1.timer u = s.timer u := by
    intro u hu
    rw [htm u, if_neg (fun hh => absurd hh.2 (not_le.mpr ((hmem u).1 hu).2))]
  refine ⟨⟨?_, ?_⟩, ?_⟩
  · intro u hu
    rw [hlen]
    exact hwf.1 u ((hmem u).1 hu).1
  · intro u hu
    rw [hlen] at hu
    by_cases hdue : u ∈ s.activeTimers ∧ (s.timer u).deadline ≤ Time.Add s.now d
    · rw [htm u, if_pos hdue, hmem]
      simp only [Bool.false_eq_true, false_iff, not_and, not_lt]
      exact fun _ => hdue.2
    · rw [htm u, if_neg hdue, hmem, hwf.2 u hu]
      constructor
      · intro h
        exact ⟨h, not_le.mp (fun hh => hdue ⟨h, hh⟩)⟩
      · exact fun h => h.1
  · intro u hu
    rw [hkeep u hu, hnow]
    exact ((hmem u).1 hu).2

theorem Reset_inv (t : Nat) (d : Duration) (s s1 : Clock) (r : Bool) (hwf : s.WellFormed)
    (hno : s.NoOverdue) (ht : t < s.timers.length) (hrun : Reset t d s = .done r s1) :
    s1.WellFormed ∧ s1.NoOverdue := by
  obtain ⟨_, hnow, hlen, hne, hcase⟩ := Reset_done_inv t d s s1 r ht hrun
  rcases hcase with ⟨hd, hself, hact⟩ | ⟨hd, _, hself, hact⟩
  · have hmem : ∀ u, u ∈ s1.activeTimers ↔ u = t ∨ u ∈ s.activeTimers := by
      intro u
      rw [hact]
      by_cases ha : (s.timer t).active = true
      · rw [if_pos ha]
        constructor
        · exact fun h => Or.inr h
        · rintro (h | h)
          · rw [h]; exact (hwf.2 t ht).1 ha
          · exact h
      · rw [if_neg ha, List.mem_insert_iff]
    refine ⟨⟨?_, ?_⟩, ?_⟩
    · intro u hu
      rw [hlen]
      rcases (hmem u).1 hu with h | h
      · rw [h]; exact ht
      · exact hwf.1 u h
    · intro u hu
      rw [hlen] at hu
      by_cases hut : u = t
      · rw [hut, hself, hmem]; simp
      · rw [hne u hut, hmem, hwf.2 u hu]
        simp [hut]
    · intro u hu
      rw [hnow]
      by_cases hut : u = t
      · rw [hut, hself]
        exact hd
      · rw [hne u hut]
        exact hno u (((hmem u).1 hu).resolve_left hut)
  · have hmem : ∀ u, u ∈ s1.activeTimers ↔ u ∈ s.activeTimers ∧ u ≠ t := by
      intro u; rw [hact, List.mem_filter]; simp
    refine ⟨⟨?_, ?_⟩, ?_⟩
    · intro u hu
      rw [hlen]
      exact hwf.1 u ((hmem u).1 hu).1
    · intro u hu
      rw [hlen] at hu
      by_cases hut : u = t
      · rw [hut, hself, hmem]; simp
      · rw [hne u hut, hmem, hwf.2 u hu]
        simp [hut]
    · intro u hu
      rw [hnow, hne u ((hmem u).1 hu).2]
      exact hno u ((hmem u).1 hu).1

theorem Stop_inv (t : Nat) (s s1 : Clock) (r : Bool) (hwf : s.WellFormed)
    (hno : s.NoOverdue) (ht : t < s.timers.length) (hrun : Stop t s = .done r s1) :
    s1.WellFormed ∧ s1.NoOverdue := by
  simp only [Stop, Exec.done.injEq] at hrun
  obtain ⟨_, hs1⟩ := hrun
  subst hs1
  have hmem : ∀ u, u ∈ (stopNoLock t s).2.activeTimers ↔ u ∈ s.activeTimers ∧ u ≠ t := by
    intro u; rw [stopNoLock_activeTimers, List.mem_filter]; simp
  refine ⟨⟨?_, ?_⟩, ?_⟩
  · intro u hu
    rw [stopNoLock_length]
    exact hwf.1 u ((hmem u).1 hu).1
  · intro u hu
    rw [stopNoLock_length] at hu
    by_cases hut : u = t
    · rw [hut, stopNoLock_timer_self t s ht, hmem]; simp
    · rw [stopNoLock_timer_ne t u s hut, hmem, hwf.2 u hu]
      simp [hut]
  · intro u hu
    rw [stopNoLock_now, stopNoLock_timer_ne t u s ((hmem u).1 hu).2]
    exact hno u ((hmem u).1 hu).1

theorem tryReceive_inv (t : Nat) (s : Clock) (hwf : s.WellFormed) (hno : s.NoOverdue)
    (ht : t < s.timers.length) :
    (tryReceive t s).2.WellFormed ∧ (tryReceive t s).2.NoOverdue := by
  have hact : (tryReceive t s).2.activeTimers = s.activeTimers := rfl
  have hlen : (tryReceive t s).2.timers.length = s.timers.length := by simp [tryReceive]
  have hnow : (tryReceive t s).2.now = s.now := rfl
  have hflag : ∀ u, ((tryReceive t s).2.timer u).active = (s.timer u).active ∧
      ((tryReceive t s).2.timer u).deadline = (s.timer u).deadline := by
    intro u
    by_cases hut : u = t
    · rw [hut, tryReceive_timer_self t s ht]; exact ⟨rfl, rfl⟩
    · rw [tryReceive_timer_ne t u s hut]; exact ⟨rfl, rfl⟩
  refine ⟨⟨?_, ?_⟩, ?_⟩
  · intro u hu
    rw [hlen]; exact hwf.1 u (hact ▸ hu)
  · intro u hu
    rw [hlen] at hu
    rw [(hflag u).1, hact]; exact hwf.2 u hu
  · intro u hu
    rw [hnow, (hflag u).2]; exact hno u (hact ▸ hu)

/-- Between calls the registry invariant holds and no registered timer is due. -/
theorem reachable_inv (s : Clock) (h : Reachable s) : s.WellFormed ∧ s.NoOverdue := by
  induction h with
  | init now => exact NewClock_inv now
  | @step s0 s1 c _ hvalid hrun ih =>
    obtain ⟨hwf, hno⟩ := ih
    cases c with
    | newTimer d =>
      simp only [Call.run] at hrun
      cases hx : NewTimer d s0 with
      | done t s2 =>
        rw [hx] at hrun
        simp only [Exec.bind, Exec.done.injEq, true_and] at hrun
        subst hrun
        exact NewTimer_inv d s0 s2 t hwf hno hx
      | panic s2 => rw [hx] at hrun; cases hrun
      | blocked s2 => rw [hx] at hrun; cases hrun
    | advance d => exact Advance_inv d s0 s1 hwf hrun
    | reset t d =>
      simp only [Call.run] at hrun
      cases hx : Reset t d s0 with
      | done r s2 =>
        rw [hx] at hrun
        simp only [Exec.bind, Exec.done.injEq, true_and] at hrun
        subst hrun
        exact Reset_inv t d s0 s2 r hwf hno hvalid hx
      | panic s2 => rw [hx] at hrun; cases hrun
      | blocked s2 => rw [hx] at hrun; cases hrun
    | stop t =>
      simp only [Call.run] at hrun
      cases hx : Stop t s0 with
      | done r s2 =>
        rw [hx] at hrun
        simp only [Exec.bind, Exec.done.injEq, true_and] at hrun
        subst hrun
        exact Stop_inv t s0 s2 r hwf hno hvalid hx
      | panic s2 => rw [hx] at hrun; cases hrun
      | blocked s2 => rw [hx] at hrun; cases hrun
    | receive t =>
      simp only [Call.run, Exec.done.injEq, true_and] at hrun
      subst hrun
      exact tryReceive_inv t s0 hwf hno hvalid

theorem Clock.eq_of_fields (s s1 : Clock) (hnow : s1.now = s.now)
    (hact : s1.activeTimers = s.activeTimers) (htm : s1.timers = s.timers) : s1 = s := by
  cases s; cases s1
  simp only [Clock.mk.injEq]
  exact ⟨hnow, hact, htm⟩

/-- The calls `NewTimer(1)`, `Advance(1)`, `Reset(1)` on `NewClock(100)` return and
lead to `undrainedClock`. -/
theorem undrainedClock_reachable : Reachable undrainedClock :=
  Reachable.step (s := ⟨101, [], [{ c := some 101, deadline := 101, active := false }]⟩)
    (.reset 0 1)
    (Reachable.step (s := ⟨100, [0], [{ c := none, deadline := 101, active := true }]⟩)
      (.advance 1)
      (Reachable.step (.newTimer 1) (Reachable.init 100) trivial (by decide))
      trivial (by decide))
    (by decide) (by decide)

/-- The calls `NewTimer(10)`, `NewTimer(1)`, `Advance(1)` and `Reset(1)` on the second
timer, on `NewClock(100)`, return and lead to `shadowedClock`. -/
theorem shadowedClock_reachable : Reachable shadowedClock :=
  Reachable.step
    (s := ⟨101, [0], [{ c := none, deadline := 110, active := true },
                      { c := some 101, deadline := 101, active := false }]⟩)
    (.reset 1 1)
    (Reachable.step
      (s := ⟨100, [1, 0], [{ c := none, deadline := 110, active := true },
                           { c := none, deadline := 101, active := true }]⟩)
      (.advance 1)
      (Reachable.step (s := ⟨100, [0], [{ c := none, deadline := 110, active := true }]⟩)
        (.newTimer 1)
        (Reachable.step (.newTimer 10) (Reachable.init 100) trivial (by decide))
        trivial (by decide))
      trivial (by decide))
    (by decide) (by decide)

theorem Advance_zero (s : Clock) (hv : ∀ u ∈ s.activeTimers, u < s.timers.length)
    (hno : s.NoOverdue) : Advance 0 s = .done () s := by
  have hz := Time.Add_zero s.now
  obtain ⟨s1, hrun, hnow, hlen, hact, htm⟩ := Advance_done 0 s le_rfl hv
    (fun u hu hdue => by
      have h1 := hno u hu
      rw [hz] at hdue
      exact absurd h1 (not_lt.mpr hdue))
  rw [hz] at hnow hact htm
  have hs : s1 = s := by
    apply Clock.eq_of_fields
    · exact hnow
    · rw [hact, List.filter_eq_self]
      intro u hu
      simpa using hno u hu
    · apply timers_ext s s1 hlen
      intro u
      rw [htm u, if_neg]
      rintro ⟨hu, hdue⟩
      exact absurd (hno u hu) (not_lt.mpr hdue)
  rw [hrun, hs]

/-- The state in which `Reset` ends, whether it returns or is parked in `fire`,
has the same `now`, and every other timer is as before, in the store and in the
registry. -/
theorem Reset_state_frame (t : Nat) (d : Duration) (s : Clock) :
    (Reset t d s).state.now = s.now ∧
      ∀ u, u ≠ t → (Reset t d s).state.timer u = s.timer u ∧
        (u ∈ (Reset t d s).state.activeTimers ↔ u ∈ s.activeTimers) := by
  rw [Reset_eq]
  by_cases hsf : shouldFire ((rearmed t d s).timer t) s.now = true
  · rw [if_pos hsf]
    cases hc : ((rearmed t d s).timer t).c with
    | some v =>
      rw [fire_of_full _ _ v hc]
      refine ⟨rfl, fun u hu => ⟨rearmed_timer_ne t u d s hu, Iff.rfl⟩⟩
    | none =>
      rw [fire_of_empty _ _ hc]
      refine ⟨rfl, fun u hu => ⟨?_, ?_⟩⟩
      · show (firedState t (rearmed t d s)).timer u = s.timer u
        rw [firedState_timer_ne _ _ _ hu, rearmed_timer_ne _ _ _ _ hu]
      · show u ∈ (firedState t (rearmed t d s)).activeTimers ↔ u ∈ s.activeTimers
        simp [List.mem_filter, hu]
  · rw [if_neg hsf]
    by_cases ha : (s.timer t).active = true
    · rw [if_pos ha]
      exact ⟨rfl, fun u hu => ⟨rearmed_timer_ne t u d s hu, Iff.rfl⟩⟩
    · rw [if_neg ha]
      refine ⟨rfl, fun u hu => ⟨rearmed_timer_ne t u d s hu, ?_⟩⟩
      show u ∈ (rearmed t d s).activeTimers.insert t ↔ u ∈ s.activeTimers
      simp [List.mem_insert_iff, hu]

theorem cycle_single (now : Time) (d : Duration) (hd : 0 < d)
    (hx1 : Time.inRange (now + d)) (hx2 : Time.inRange (now + d + d)) :
    cycle 0 d ⟨now, [0], [{ c := none, deadline := now + d, active := true }]⟩ =
      .done (some (now + d))
        ⟨now + d, [0], [{ c := none, deadline := now + d + d, active := true }]⟩ := by
  have h1 : ¬ d < 0 := by linarith
  have h2 : ¬ d ≤ 0 := by linarith
  simp [cycle, Advance, rangeActiveTimers, shouldFire, fire, stopNoLock, Clock.timer,
    Clock.setTimer, Exec.bind, tryReceive, Reset, h1, h2, Time.Add_exact now d hx1,
    Time.Add_exact (now + d) d hx2]

theorem cycles_single (d : Duration) (hd : 0 < d) (n : Nat) : ∀ now : Time,
    Time.inRange now → Time.inRange (now + ((n : Int) + 1) * d) →
    cycles 0 d n ⟨now, [0], [{ c := none, deadline := now + d, active := true }]⟩ =
      .done ((List.range n).map fun (i : Nat) => some (now + ((i : Int) + 1) * d))
        ⟨now + (n : Int) * d, [0],
          [{ c := none, deadline := now + (n : Int) * d + d, active := true }]⟩ := by
  induction n with
  | zero => intro now _ _; simp [cycles]
  | succ n ih =>
    intro now h0 h1
    have hn : (0 : Int) ≤ (n : Int) := Int.ofNat_nonneg n
    have hnd : 0 ≤ (n : Int) * d := mul_nonneg hn (le_of_lt hd)
    have hlast : Time.inRange (now + (n : Int) * d + d + d) := by
      have : now + (n : Int) * d + d + d = now + (((n + 1 : Nat) : Int) + 1) * d := by
        push_cast; ring
      rw [this]; exact h1
    have hx1 : Time.inRange (now + d) :=
      Time.inRange_between now (now + (n : Int) * d + d + d) (now + d) h0 hlast
        (by linarith) (by linarith)
    have hx2 : Time.inRange (now + d + d) :=
      Time.inRange_between now (now + (n : Int) * d + d + d) (now + d + d) h0 hlast
        (by linarith) (by linarith)
    have hx3 : Time.inRange (now + d + ((n : Int) + 1) * d) := by
      have : now + d + ((n : Int) + 1) * d = now + (n : Int) * d + d + d := by ring
      rw [this]; exact hlast
    simp only [cycles, cycle_single now d hd hx1 hx2, Exec.bind, ih (now + d) hx1 hx3]
    rw [List.range_succ_eq_map, List.map_cons, List.map_map]
    have hl : (List.range n).map (fun (i : Nat) => some (now + d + ((i : Int) + 1) * d)) =
        (List.range n).map ((fun i : Nat => some (now + ((i : Int) + 1) * d)) ∘ Nat.succ) := by
      apply List.map_congr_left
      intro i _
      simp only [Function.comp, Nat.succ_eq_add_one, Nat.cast_add, Nat.cast_one, Option.some.injEq]
      ring
    rw [hl]
    have h1 : now + d + (n : Int) * d = now + ((n + 1 : Nat) : Int) * d := by
      push_cast; ring
    rw [h1]
    simp

/-- Two `Advance` calls in a row, on a clock whose registered timers exist and have
empty buffers, end in the state of the single call with the sum. -/
theorem Advance_add (a b : Duration) (s : Clock) (ha : 0 ≤ a) (hb : 0 ≤ b)
    (hs : s.Drained) (hx0 : Time.inRange s.now) (hx1 : Time.inRange (s.now + (a + b))) :
    ∃ s1 s2, Advance a s = .done () s1 ∧ Advance b s1 = .done () s2 ∧
      Advance (a + b) s = .done () s2 := by
  have hxa : Time.inRange (s.now + a) :=
    Time.inRange_between s.now (s.now + (a + b)) (s.now + a) hx0 hx1 (by linarith) (by linarith)
  obtain ⟨s1, hrun1, hnow1, hlen1, hact1, htm1⟩ := Advance_done a s ha
    (fun u hu => (hs u hu).1) (fun u hu _ => (hs u hu).2)
  rw [Time.Add_exact s.now a hxa] at hnow1 hact1 htm1
  have hAb : Time.Add s1.now b = s1.now + b := by
    rw [hnow1]
    exact Time.Add_exact (s.now + a) b (by rw [add_assoc]; exact hx1)
  have hmem1 : ∀ u, u ∈ s1.activeTimers ↔
      u ∈ s.activeTimers ∧ s.now + a < (s.timer u).deadline := by
    intro u; rw [hact1, List.mem_filter]; simp
  have hkeep1 : ∀ u, u ∈ s1.activeTimers → s1.timer u = s.timer u := by
    intro u hu
    rw [htm1 u, if_neg (fun hh => absurd hh.2 (not_le.mpr ((hmem1 u).1 hu).2))]
  obtain ⟨s2, hrun2, hnow2, hlen2, hact2, htm2⟩ := Advance_done b s1 hb
    (fun u hu => by rw [hlen1]; exact (hs u ((hmem1 u).1 hu).1).1)
    (fun u hu _ => by rw [hkeep1 u hu]; exact (hs u ((hmem1 u).1 hu).1).2)
  rw [hAb] at hnow2 hact2 htm2
  obtain ⟨s3, hrun3, hnow3, hlen3, hact3, htm3⟩ := Advance_done (a + b) s (by linarith)
    (fun u hu => (hs u hu).1) (fun u hu _ => (hs u hu).2)
  rw [Time.Add_exact s.now (a + b) hx1] at hnow3 hact3 htm3
  have hs23 : s3 = s2 := by
    apply Clock.eq_of_fields
    · rw [hnow3, hnow2, hnow1]
      show s.now + (a + b) = s.now + a + b
      ring
    · rw [hact3, hact2, hact1, List.filter_filter]
      apply List.filter_congr
      intro u hu
      by_cases hlt : s.now + a < (s.timer u).deadline
      · have hk := hkeep1 u ((hmem1 u).2 ⟨hu, hlt⟩)
        rw [hk, hnow1]
        have : (s.now + (a + b) < (s.timer u).deadline) ↔
            (s.now + a + b < (s.timer u).deadline) := by
          rw [add_assoc]
        simp [hlt, this]
      · have h2 : ¬ s.now + (a + b) < (s.timer u).deadline := by
          intro hh
          apply hlt
          linarith
        simp [hlt, h2]
    · apply timers_ext s2 s3 (by rw [hlen3, hlen2, hlen1])
      intro u
      rw [htm3 u, htm2 u]
      by_cases hu : u ∈ s.activeTimers
      · by_cases hlt : s.now + a < (s.timer u).deadline
        · have hu1 : u ∈ s1.activeTimers := (hmem1 u).2 ⟨hu, hlt⟩
          rw [hkeep1 u hu1, hnow1]
          by_cases hdue : (s.timer u).deadline ≤ s.now + (a + b)
          · rw [if_pos ⟨hu, hdue⟩, if_pos ⟨hu1, by rw [add_assoc]; exact hdue⟩]
          · rw [if_neg (fun hh => hdue hh.2),
              if_neg (fun hh => hdue (by rw [← add_assoc]; exact hh.2))]
        · have hle : (s.timer u).deadline ≤ s.now + a := not_lt.mp hlt
          have hu1 : u ∉ s1.activeTimers := fun hh => hlt ((hmem1 u).1 hh).2
          rw [if_pos ⟨hu, by linarith⟩, if_neg (fun hh => hu1 hh.1), htm1 u, if_pos ⟨hu, hle⟩]
      · have hu1 : u ∉ s1.activeTimers := fun hh => hu ((hmem1 u).1 hh).1
        rw [if_neg (fun hh => hu hh.1), if_neg (fun hh => hu1 hh.1), htm1 u,
          if_neg (fun hh => hu hh.1)]
  exact ⟨s1, s2, hrun1, hrun2, by rw [hrun3, hs23]⟩

/-! ## The properties stated by the specification -/

/-- Counterexample to C1. On a new clock at half a second into the last second of
`time.Time`, timers with delays 0.1s and 0.2s are armed with empty buffers
(`lateClock`). `Advance(0.6s)` carries into a second that does not exist: it returns
with `now` moved back to 0.1s into the last second and fires neither timer, although
both deadlines are at most `now + 0.6s`. -/
theorem advance_postcondition_counterexample :
    ((NewTimer 100000000 (NewClock (lastSecond + 500000000))).bind fun _ s1 =>
        NewTimer 200000000 s1) = .done 1 lateClock ∧
      lateClock.WellFormed ∧ lateClock.armed 0 ∧ lateClock.armed 1 ∧
      C 0 lateClock = none ∧ C 1 lateClock = none ∧
      (lateClock.timer 0).deadline ≤ Now lateClock + 600000000 ∧
      (lateClock.timer 1).deadline ≤ Now lateClock + 600000000 ∧
      Advance 600000000 lateClock =
        .done () { lateClock with now := lastSecond + 100000000 } := by
  decide

/-- C1, amended. After `Advance(d)` with `d >= 0`, on a clock whose armed timers all
have an empty buffer and for which `now + d` is inside the range of `time.Time`, the
call returns with `now` advanced by `d`; every timer that was armed with a deadline at
or before the new time is unarmed, out of `activeTimers`, and has its own deadline
pending on its channel; every timer that was armed with a later deadline is still
armed and registered with the same deadline and an empty buffer. Two timers created
on a new clock and advanced past both delays each deliver their own deadline, when
the deadlines and the new time are inside the range. -/
theorem advance_postcondition :
    (∀ (s : Clock) (d : Duration), s.WellFormed → (∀ t, s.armed t → C t s = none) → 0 ≤ d →
      Time.inRange (Now s + d) →
      ∃ s1, Advance d s = .done () s1 ∧ Now s1 = Now s + d ∧
        (∀ t, s.armed t → (s.timer t).deadline ≤ Now s + d →
          (s1.timer t).active = false ∧ t ∉ s1.activeTimers ∧
            C t s1 = some (s.timer t).deadline) ∧
        (∀ t, s.armed t → Now s + d < (s.timer t).deadline →
          s1.armed t ∧ (s1.timer t).deadline = (s.timer t).deadline ∧ C t s1 = none)) ∧
    (∀ (start : Time) (d1 d2 step : Duration), d1 ≠ d2 → d1 ≤ step → d2 ≤ step → 0 ≤ step →
      Time.inRange (start + d1) → Time.inRange (start + d2) → Time.inRange (start + step) →
      ∃ s1 s2 s3, NewTimer d1 (NewClock start) = .done 0 s1 ∧ NewTimer d2 s1 = .done 1 s2 ∧
        Advance step s2 = .done () s3 ∧
        C 0 s3 = some (start + d1) ∧ C 1 s3 = some (start + d2)) := by
  constructor
  · intro s d hwf hbuf hd hx
    have harmed : ∀ u ∈ s.activeTimers, s.armed u := fun u hu =>
      ⟨hwf.1 u hu, (hwf.2 u (hwf.1 u hu)).2 hu, hu⟩
    obtain ⟨s1, hrun, hnow, hlen, hact, htm⟩ := Advance_done d s hd hwf.1
      (fun u hu _ => hbuf u (harmed u hu))
    rw [Time.Add_exact s.now d hx] at hnow hact htm
    refine ⟨s1, hrun, hnow, ?_, ?_⟩
    · intro t ht hdl
      have hdl1 : (s.timer t).deadline ≤ s.now + d := hdl
      have h := htm t
      rw [if_pos ⟨ht.2.2, hdl1⟩] at h
      refine ⟨by rw [h], ?_, by rw [C, h]⟩
      rw [hact, List.mem_filter]
      rintro ⟨_, hlt⟩
      have hlt1 : s.now + d < (s.timer t).deadline := by simpa using hlt
      exact absurd hdl1 (not_le.mpr hlt1)
    · intro t ht hdl
      have hdl1 : s.now + d < (s.timer t).deadline := hdl
      have h := htm t
      rw [if_neg (fun hh => absurd hh.2 (not_le.mpr hdl1))] at h
      refine ⟨⟨by rw [hlen]; exact ht.1, by rw [h]; exact ht.2.1, ?_⟩, by rw [h], ?_⟩
      · rw [hact, List.mem_filter]
        exact ⟨ht.2.2, by simpa using hdl1⟩
      · rw [C, h]; exact hbuf t ht
  · intro start d1 d2 step _ h1 h2 h0 hx1 hx2 hx3
    have hstep : ¬ step < 0 := not_lt.mpr h0
    by_cases hp1 : d1 ≤ 0 <;> by_cases hp2 : d2 ≤ 0 <;>
      simp [NewTimer, NewClock, Reset, Clock.setTimer, Clock.timer, simulatedTimer.zero,
        shouldFire, fire, stopNoLock, Exec.bind, Advance, rangeActiveTimers, C, hp1, hp2, h1, h2,
        hstep, Time.Add_exact start d1 hx1, Time.Add_exact start d2 hx2,
        Time.Add_exact start step hx3]

/-- Instance of C1, amended: advancing `sampleClock` by 10 fires the timer due at 105 and keeps
the timer due at 120 armed. -/
theorem advance_postcondition_witness :
    sampleClock.WellFormed ∧ (∀ t, sampleClock.armed t → C t sampleClock = none) ∧
      (0 : Duration) ≤ 10 ∧ Time.inRange (Now sampleClock + 10) ∧
      ∃ s1, Advance 10 sampleClock = .done () s1 ∧ Now s1 = 110 ∧
        C 0 s1 = some 105 ∧ s1.armed 1 ∧ C 1 s1 = none :=
  have hwf : sampleClock.WellFormed := by decide
  have hbuf : ∀ t, sampleClock.armed t → C t sampleClock = none := by
    intro t ht
    have h2 : t < 2 := ht.1
    interval_cases t <;> rfl
  ⟨hwf, hbuf, by decide, by decide,
    (advance_postcondition.1 sampleClock 10 hwf hbuf (by decide) (by decide)).imp fun _ h =>
      ⟨h.1, h.2.1, (h.2.2.1 0 (by decide) (by decide)).2.2,
        (h.2.2.2 1 (by decide) (by decide)).1, (h.2.2.2 1 (by decide) (by decide)).2.2⟩⟩

/-- Counterexample to C2. At the last nanosecond that a `time.Time` holds,
`Advance(1ns)` returns with `Now()` at the start of that second: the clock has gone
back by 999999999ns instead of forward by 1ns. -/
theorem now_monotonic_counterexample :
    Advance 1 (NewClock (lastSecond + 999999999)) =
        .done () { now := lastSecond, activeTimers := [], timers := [] } ∧
      Now { now := lastSecond, activeTimers := [], timers := [] } <
        Now (NewClock (lastSecond + 999999999)) := by
  decide

/-- C2, amended. On `NewClock(t0)`, `Now()` is `t0` before any call. When `t0` and
`t0` plus the sum of all advances are inside the range of `time.Time`: after the
calls `Advance(x)` for `x` in `pre` (all non-negative) `Now()` is `t0` plus their sum,
and a further `Advance(d)` with `d >= 0` returns with `Now()` equal to the previous
`Now()` plus `d`, which is not smaller than before. -/
theorem now_monotonic (t0 : Time) (pre : List Duration) (d : Duration)
    (hpre : ∀ x ∈ pre, 0 ≤ x) (hd : 0 ≤ d) (h0 : Time.inRange t0)
    (h1 : Time.inRange (t0 + (pre.sum + d))) :
    Now (NewClock t0) = t0 ∧
    ∃ s s1, advanceAll pre (NewClock t0) = .done () s ∧ Now s = t0 + pre.sum ∧
      Advance d s = .done () s1 ∧ advanceAll (pre ++ [d]) (NewClock t0) = .done () s1 ∧
      Now s1 = Now s + d ∧ Now s ≤ Now s1 := by
  have hs := sum_nonneg_of_nonneg pre hpre
  have hmid : Time.inRange (t0 + pre.sum) :=
    Time.inRange_between t0 (t0 + (pre.sum + d)) (t0 + pre.sum) h0 h1 (by linarith)
      (by linarith)
  have hA : Time.Add (t0 + pre.sum) d = t0 + pre.sum + d :=
    Time.Add_exact (t0 + pre.sum) d (by rw [add_assoc]; exact h1)
  have hall : ∀ x ∈ pre ++ [d], 0 ≤ x := by
    intro x hx
    rcases List.mem_append.1 hx with h | h
    · exact hpre x h
    · simp at h; exact h ▸ hd
  refine ⟨rfl, ⟨t0 + pre.sum, [], []⟩, ⟨t0 + pre.sum + d, [], []⟩,
    advanceAll_bare pre t0 hpre h0 hmid, rfl,
    (Advance_bare _ d hd).trans (by rw [hA]), ?_, rfl, ?_⟩
  · have h := advanceAll_bare (pre ++ [d]) t0 hall h0 (by
      simpa [List.sum_append] using h1)
    rw [NewClock, h]
    simp [add_assoc]
  · show t0 + pre.sum ≤ t0 + pre.sum + d
    linarith

/-- Instance of C2, amended, with `t0 = 7`, earlier advances `3, 0, 4` and a further advance of 5. -/
theorem now_monotonic_witness :
    (∀ x ∈ ([3, 0, 4] : List Duration), 0 ≤ x) ∧ (0 : Duration) ≤ 5 ∧
      Time.inRange 7 ∧ Time.inRange (7 + (([3, 0, 4] : List Duration).sum + 5)) ∧
      Now (NewClock 7) = 7 ∧
      ∃ s s1, advanceAll [3, 0, 4] (NewClock 7) = .done () s ∧ Now s = 7 + 7 ∧
        Advance 5 s = .done () s1 ∧ advanceAll ([3, 0, 4] ++ [5]) (NewClock 7) = .done () s1 ∧
        Now s1 = Now s + 5 ∧ Now s ≤ Now s1 :=
  ⟨by decide, by decide, by decide, by decide,
    now_monotonic 7 [3, 0, 4] 5 (by decide) (by decide) (by decide) (by decide)⟩

/-- C3. `Advance(d)` with `d < 0` panics, and the clock at the panic is the clock
before the call: `now`, `activeTimers` and every timer are unchanged. -/
theorem advance_negative_panics (s : Clock) (d : Duration) (hd : d < 0) :
    Advance d s = .panic s ∧ (Advance d s).state = s := by
  rw [Advance_neg d s hd]
  exact ⟨rfl, rfl⟩

/-- Instance of C3: `Advance(-1ns)` on `sampleClock`. -/
theorem advance_negative_panics_witness :
    (-1 : Duration) < 0 ∧ Advance (-1) sampleClock = .panic sampleClock ∧
      (Advance (-1) sampleClock).state = sampleClock :=
  ⟨by decide, advance_negative_panics sampleClock (-1) (by decide)⟩

/-- Counterexample to C4. On a new clock at the start of the last second of
`time.Time`, the deadline of `NewTimer(1s)` is pinned at the current time, so the
timer fires during `NewTimer`: after `Advance(0)` a notification is pending although
the step 0 is smaller than the delay. -/
theorem deadline_boundary_inclusive_counterexample :
    NewTimer 1000000000 (NewClock lastSecond) = .done 0 spentClock ∧
      Advance 0 spentClock = .done () spentClock ∧
      C 0 spentClock ≠ none ∧ ¬ ((1000000000 : Duration) ≤ 0) := by
  decide

/-- C4, amended. For a timer created with delay `d > 0` on a new clock, when the start
time, the deadline and the time after the step are inside the range of `time.Time`:
after `Advance(step)` with `step >= 0` a notification is pending on its channel
exactly when `step >= d`; `Advance(d - 1)` leaves the channel empty and `Advance(d)`
fills it. -/
theorem deadline_boundary_inclusive (start : Time) (d step : Duration) (hd : 0 < d)
    (hstep : 0 ≤ step) (hx0 : Time.inRange start) (hxd : Time.inRange (start + d))
    (hxs : Time.inRange (start + step)) :
    ∃ t s1, NewTimer d (NewClock start) = .done t s1 ∧
      (∃ s2, Advance step s1 = .done () s2 ∧ (C t s2 ≠ none ↔ d ≤ step)) ∧
      (∃ s3, Advance (d - 1) s1 = .done () s3 ∧ C t s3 = none) ∧
      (∃ s4, Advance d s1 = .done () s4 ∧ C t s4 ≠ none) := by
  have h1 : ¬ step < 0 := not_lt.mpr hstep
  have hd1 : 0 + 1 ≤ d := Int.add_one_le_of_lt hd
  have h2 : ¬ d - 1 < 0 := by linarith
  have h3 : ¬ d < 0 := by linarith
  have h4 : ¬ d ≤ 0 := by linarith
  have h5 : ¬ d ≤ d - 1 := by linarith
  have hxp : Time.inRange (start + (d - 1)) :=
    Time.inRange_between start (start + d) (start + (d - 1)) hx0 hxd (by linarith)
      (by linarith)
  refine ⟨0, ⟨start, [0], [{ c := none, deadline := start + d, active := true }]⟩, ?_, ?_, ?_, ?_⟩ <;>
  by_cases hs : d ≤ step <;>
    simp [NewTimer, NewClock, Reset, Clock.setTimer, Clock.timer, simulatedTimer.zero,
      shouldFire, fire, stopNoLock, Exec.bind, Advance, rangeActiveTimers, C, hd, h1, h2, h3, h4,
      h5, hs, Time.Add_exact start d hxd, Time.Add_exact start step hxs,
      Time.Add_exact start (d - 1) hxp]

/-- Instance of C4, amended, with `start = 100`, `d = 5` and `step = 7`. -/
theorem deadline_boundary_inclusive_witness :
    (0 : Duration) < 5 ∧ (0 : Duration) ≤ 7 ∧ Time.inRange 100 ∧ Time.inRange (100 + 5) ∧
      Time.inRange (100 + 7) ∧
      ∃ t s1, NewTimer 5 (NewClock 100) = .done t s1 ∧
        (∃ s2, Advance 7 s1 = .done () s2 ∧ (C t s2 ≠ none ↔ (5 : Duration) ≤ 7)) ∧
        (∃ s3, Advance (5 - 1) s1 = .done () s3 ∧ C t s3 = none) ∧
        (∃ s4, Advance 5 s1 = .done () s4 ∧ C t s4 ≠ none) :=
  ⟨by decide, by decide, by decide, by decide, by decide,
    deadline_boundary_inclusive 100 5 7 (by decide) (by decide) (by decide) (by decide)
      (by decide)⟩

/-- Counterexample to C5. On a new clock at the start of the last second of
`time.Time`, a timer with delay 1s fires during `NewTimer` with the pinned deadline
`lastSecond`. `Advance(2s)` leaves `Now()` at `lastSecond`, so the value received is
the time after the advance, and it is not the start time plus 1s. -/
theorem exact_deadline_reported_counterexample :
    NewTimer 1000000000 (NewClock lastSecond) = .done 0 spentClock ∧
      Advance 2000000000 spentClock = .done () spentClock ∧
      (1000000000 : Duration) < 2000000000 ∧
      (tryReceive 0 spentClock).1 = some (Now spentClock) ∧
      (tryReceive 0 spentClock).1 ≠ some (lastSecond + 1000000000) := by
  decide

/-- C5, amended. For a timer created with delay `d > 0` on a clock started at `start`,
when the deadline and the time after the step are inside the range of `time.Time`:
after `Advance(step)` with `step >= d` the value pending on, and received from, its
channel is `start + d`; when `step > d` this differs from the new time
`start + step`. -/
theorem exact_deadline_reported (start : Time) (d step : Duration) (hd : 0 < d)
    (hstep : d ≤ step) (hxd : Time.inRange (start + d)) (hxs : Time.inRange (start + step)) :
    ∃ t s1 s2, NewTimer d (NewClock start) = .done t s1 ∧ Advance step s1 = .done () s2 ∧
      Now s2 = start + step ∧
      C t s2 = some (start + d) ∧ (tryReceive t s2).1 = some (start + d) ∧
      (d < step → (tryReceive t s2).1 ≠ some (Now s2)) := by
  have h1 : ¬ step < 0 := by linarith
  have h4 : ¬ d ≤ 0 := by linarith
  have h5 : d < step → ¬ d = step := fun h => ne_of_lt h
  refine ⟨0, ⟨start, [0], [{ c := none, deadline := start + d, active := true }]⟩, ?_⟩
  simp [NewTimer, NewClock, Reset, Clock.setTimer, Clock.timer, simulatedTimer.zero,
    shouldFire, fire, stopNoLock, Exec.bind, Advance, rangeActiveTimers, C, tryReceive, Now, hd,
    h1, h4, hstep, Time.Add_exact start d hxd, Time.Add_exact start step hxs]
  exact h5

/-- Instance of C5, amended, with `start = 100`, `d = 5` and `step = 15`. -/
theorem exact_deadline_reported_witness :
    (0 : Duration) < 5 ∧ (5 : Duration) ≤ 15 ∧ Time.inRange (100 + 5) ∧
      Time.inRange (100 + 15) ∧
      ∃ t s1 s2, NewTimer 5 (NewClock 100) = .done t s1 ∧ Advance 15 s1 = .done () s2 ∧
        Now s2 = 100 + 15 ∧
        C t s2 = some (100 + 5) ∧ (tryReceive t s2).1 = some (100 + 5) ∧
        ((5 : Duration) < 15 → (tryReceive t s2).1 ≠ some (Now s2)) :=
  ⟨by decide, by decide, by decide, by decide,
    exact_deadline_reported 100 5 15 (by decide) (by decide) (by decide) (by decide)⟩

/-- Counterexample to C6. First, on a new clock at the start of the last second of
`time.Time`, the deadline of `NewTimer(1s)` is pinned at the current time: the one
send happens inside `NewTimer`, and the `Advance(1s)` that takes the elapsed time to
the delay makes no send. Second, on the reachable `undrainedClock`, whose timer 0 is
armed with a notification pending, `Advance(5)` after `NewTimer(5)` is parked on the
send for timer 0 and never returns; when the loop visits timer 0 first, the new timer
has then not been sent to although the elapsed time has reached its delay. -/
theorem single_fire_counterexample :
    ((NewClock lastSecond).Drained ∧
      NewTimer 1000000000 (NewClock lastSecond) = .done 0 spentClock ∧
      C 0 spentClock = some lastSecond ∧
      runSteps 0 [.advance 1000000000] spentClock = .done () spentClock ∧
      sendCount 0 [.advance 1000000000] spentClock = 0 ∧
      (1000000000 : Duration) ≤ elapsed [.advance 1000000000]) ∧
    (Reachable undrainedClock ∧ NewTimer 5 undrainedClock =
        .done 1
          { now := 101, activeTimers := [1, 0],
            timers := [{ c := some 101, deadline := 102, active := true },
                       { c := none, deadline := 106, active := true }] } ∧
      runSteps 1 [.advance 5]
          { now := 101, activeTimers := [1, 0],
            timers := [{ c := some 101, deadline := 102, active := true },
                       { c := none, deadline := 106, active := true }] } =
        .blocked
          { now := 106, activeTimers := [0],
            timers := [{ c := some 101, deadline := 102, active := true },
                       { c := some 106, deadline := 106, active := false }] } ∧
      runSteps 1 [.advance 5]
          { now := 101, activeTimers := [0, 1],
            timers := [{ c := some 101, deadline := 102, active := true },
                       { c := none, deadline := 106, active := true }] } =
        .blocked
          { now := 106, activeTimers := [0, 1],
            timers := [{ c := some 101, deadline := 102, active := true },
                       { c := none, deadline := 106, active := true }] }) :=
  ⟨by decide, undrainedClock_reachable, by decide⟩

/-- C6, amended. Let a timer be created with delay `d > 0` on a clock whose registered
timers have empty buffers, and let any sequence of `Advance` calls with non-negative
arguments and of receives from the timer follow, with no `Reset`, all times from `now`
to the time after the last call being inside the range of `time.Time`. All calls
return; the number of sends on the channel is 1 when the elapsed time of the sequence
reaches `d` and 0 otherwise; and a further `Advance(e)` puts the deadline into the
empty buffer when it is the call that takes the elapsed time from below `d` to `d`
or more, and otherwise leaves the buffer as it is. -/
theorem single_fire (s : Clock) (d : Duration) (steps : List Step) (e : Duration)
    (hs : s.Drained) (hd : 0 < d) (hsteps : ∀ x, Step.advance x ∈ steps → 0 ≤ x)
    (he : 0 ≤ e) (hx0 : Time.inRange (Now s)) (hxd : Time.inRange (Now s + d))
    (hxe : Time.inRange (Now s + (elapsed steps + e))) :
    ∃ t s0 s1 s2, NewTimer d s = .done t s0 ∧ runSteps t steps s0 = .done () s1 ∧
      Advance e s1 = .done () s2 ∧
      sendCount t steps s0 = (if d ≤ elapsed steps then 1 else 0) ∧
      (elapsed steps < d → d ≤ elapsed steps + e →
        C t s1 = none ∧ C t s2 = some (Now s + d)) ∧
      (¬ (elapsed steps < d ∧ d ≤ elapsed steps + e) → C t s2 = C t s1) := by
  have hel : 0 ≤ elapsed steps := elapsed_nonneg steps hsteps
  have hxs : Time.inRange (s.now + elapsed steps) :=
    Time.inRange_between s.now (s.now + (elapsed steps + e)) (s.now + elapsed steps) hx0 hxe
      (by linarith) (by linarith)
  obtain ⟨s0, hnew, hnow0, hsch0⟩ := NewTimer_scheduled s d hs hd hxd
  obtain ⟨s1, hrun, hsch1, hnow1, hcnt⟩ :=
    runSteps_scheduled _ _ steps s0 hsch0 hsteps (by rw [hnow0]; exact hx0)
      (by rw [hnow0]; exact hxs)
  rw [hnow0] at hnow1 hcnt
  obtain ⟨s2, hadv, _, _, hsend, hkeep⟩ := Advance_scheduled _ _ s1 e hsch1 he (by
    rw [hnow1, add_assoc]
    exact hxe)
  rw [hnow1] at hsend hkeep
  refine ⟨_, s0, s1, s2, hnew, hrun, hadv, ?_, ?_, ?_⟩
  · rw [hcnt]
    by_cases hx : d ≤ elapsed steps
    · rw [if_pos hx, if_pos ⟨by linarith, by linarith⟩]
    · rw [if_neg hx, if_neg (fun hh => hx (by linarith [hh.2]))]
  · intro h1 h2
    exact hsend (by linarith) (by linarith)
  · intro h
    exact hkeep (fun hh => h ⟨by linarith [hh.1], by linarith [hh.2]⟩)

/-- Instance of C6, amended: a timer with delay 5 on a new clock at time 100;
`Advance(3)`, `Advance(4)`, a receive and `Advance(10)` make one send, and a further
`Advance(1)` leaves the buffer as it is. -/
theorem single_fire_witness :
    (NewClock 100).Drained ∧ (0 : Duration) < 5 ∧ (0 : Duration) ≤ 1 ∧
      Time.inRange (Now (NewClock 100)) ∧ Time.inRange (Now (NewClock 100) + 5) ∧
      Time.inRange (Now (NewClock 100) +
        (elapsed [.advance 3, .advance 4, .receive, .advance 10] + 1)) ∧
      ∃ t s0 s1 s2, NewTimer 5 (NewClock 100) = .done t s0 ∧
        runSteps t [.advance 3, .advance 4, .receive, .advance 10] s0 = .done () s1 ∧
        Advance 1 s1 = .done () s2 ∧
        sendCount t [.advance 3, .advance 4, .receive, .advance 10] s0 = 1 ∧
        C t s2 = C t s1 :=
  ⟨by decide, by decide, by decide, by decide, by decide, by decide,
    match single_fire (NewClock 100) 5 [.advance 3, .advance 4, .receive, .advance 10] 1
      (by decide) (by decide)
      (by
        intro x hx
        simp at hx
        rcases hx with h | h | h <;> rw [h] <;> decide)
      (by decide) (by decide) (by decide) (by decide) with
    | ⟨t, s0, s1, s2, h1, h2, h3, h4, _, h6⟩ =>
      ⟨t, s0, s1, s2, h1, h2, h3, h4, h6 (by decide)⟩⟩

/-- C7. `Stop()` on an armed timer returns `true`, leaves the timer unarmed, and after
it no sequence of `Advance` calls changes the content of the buffer of the timer, however
the calls end; `Stop()` on an unarmed timer returns `false` and leaves the whole
clock and timer state as it was. -/
theorem stop_semantics (s : Clock) (t : Nat) :
    (s.armed t → ∃ s1, Stop t s = .done true s1 ∧ s1.unarmed t ∧ C t s1 = C t s ∧
      ∀ ds : List Duration, C t (advanceAll ds s1).state = C t s) ∧
    (s.unarmed t → Stop t s = .done false s) := by
  constructor
  · intro h
    have hself := stopNoLock_timer_self t s h.1
    have hnot := not_mem_stopNoLock t s
    refine ⟨(stopNoLock t s).2, ?_, ⟨by simpa using h.1, by rw [hself], hnot⟩, ?_, ?_⟩
    · simp [Stop, h.2.1]
    · simp [C, hself]
    · intro ds
      have h1 := advanceAll_untouched t ds (stopNoLock t s).2 hnot
      simp [C, h1.1, hself]
  · intro h
    have hset : s.setTimer t { s.timer t with active := false } = s := by
      have h1 : ({ s.timer t with active := false } : simulatedTimer) = s.timer t := by
        rw [← h.2.1]
      rw [h1, setTimer_same]
    have hfil : s.activeTimers.filter (fun u => u != t) = s.activeTimers := by
      rw [List.filter_eq_self]
      intro u hu
      have : u ≠ t := fun e => h.2.2 (e ▸ hu)
      simpa using this
    simp only [Stop, stopNoLock, hset, hfil, h.2.1]

/-- Instance of C7: stopping the armed timer 0 of `sampleClock` and then advancing by
50 and by 1000; stopping the fired timer 0 of the clock that results from
`Advance(10)`. -/
theorem stop_semantics_witness :
    sampleClock.armed 0 ∧
      (∃ s1, Stop 0 sampleClock = .done true s1 ∧ s1.unarmed 0 ∧
        C 0 (advanceAll [50, 1000] s1).state = none) ∧
      (Advance 10 sampleClock).state.unarmed 0 ∧
      Stop 0 (Advance 10 sampleClock).state = .done false (Advance 10 sampleClock).state :=
  have ha : sampleClock.armed 0 := by decide
  have hu : (Advance 10 sampleClock).state.unarmed 0 := by decide
  ⟨ha,
    ((stop_semantics sampleClock 0).1 ha).imp fun _ h => ⟨h.1, h.2.1, h.2.2.2 [50, 1000]⟩,
    hu, (stop_semantics (Advance 10 sampleClock).state 0).2 hu⟩

/-- C8. The calls `NewTimer(1)`, `Advance(1)`, `Reset(1)` on a new clock return and
lead to `undrainedClock`, where timer 0 is armed and the notification of its first
fire is pending. There `Reset(0)` is parked on the send to the full buffer and returns
no value, neither `true` nor `false`; after one receive from the channel the same
call returns `true` with the current time pending and the timer unarmed. -/
theorem reset_zero_parks :
    ((NewTimer 1 (NewClock 100)).bind fun t s =>
        (Advance 1 s).bind fun _ s1 => Reset t 1 s1) = .done false undrainedClock ∧
      undrainedClock.armed 0 ∧
      Reset 0 0 undrainedClock = .blocked (rearmed 0 0 undrainedClock) ∧
      (¬ ∃ r s1, Reset 0 0 undrainedClock = .done r s1) ∧
      Reset 0 0 (tryReceive 0 undrainedClock).2 =
        .done true
          { now := 101, activeTimers := [],
            timers := [{ c := some 101, deadline := 101, active := false }] } := by
  have hb : Reset 0 0 undrainedClock = .blocked (rearmed 0 0 undrainedClock) := by decide
  refine ⟨by decide, by decide, hb, ?_, by decide⟩
  rintro ⟨r, s1, h⟩
  rw [hb] at h
  cases h

/-- Counterexample to C9. First, on the clock at the start of the last second of
`time.Time` whose timer 0 has fired and been received, `Reset(1s)` pins the deadline at
the current time and fires at once: the timer is left unarmed with `lastSecond`
pending. Second, on the reachable `shadowedClock`, where timer 0 is armed with an
empty buffer, `Reset(5)` on timer 0 returns, but the following `Advance(5)` is parked
on the send for timer 1, whose buffer is full, and timer 0 has not fired. -/
theorem reset_reschedules_counterexample :
    ((tryReceive 0 spentClock).2.unarmed 0 ∧ C 0 (tryReceive 0 spentClock).2 = none ∧
      (0 : Duration) < 1000000000 ∧
      Reset 0 1000000000 (tryReceive 0 spentClock).2 = .done false spentClock ∧
      spentClock.unarmed 0 ∧ C 0 spentClock = some lastSecond) ∧
    (Reachable shadowedClock ∧ shadowedClock.armed 0 ∧ C 0 shadowedClock = none ∧
      Reset 0 5 shadowedClock =
        .done true
          { now := 101, activeTimers := [1, 0],
            timers := [{ c := none, deadline := 106, active := true },
                       { c := some 101, deadline := 102, active := true }] } ∧
      Advance 5
          { now := 101, activeTimers := [1, 0],
            timers := [{ c := none, deadline := 106, active := true },
                       { c := some 101, deadline := 102, active := true }] } =
        .blocked
          { now := 106, activeTimers := [1, 0],
            timers := [{ c := none, deadline := 106, active := true },
                       { c := some 101, deadline := 102, active := true }] }) :=
  ⟨by decide, shadowedClock_reachable, by decide⟩

/-- C9, amended. `Reset(d)` with `d > 0` on a timer with an empty buffer, armed or
unarmed, with `now + d` inside the range of `time.Time`, returns with the timer armed
and registered, its deadline `now + d` and its buffer empty, whatever the old deadline
was. When every timer armed before the `Reset` had an empty buffer, a following
`Advance(st)` with `st >= 0` and `now + st` inside the range returns, with `now + d`
on the channel when `st >= d` and with the channel empty when `st < d`. -/
theorem reset_reschedules (s : Clock) (t : Nat) (d : Duration)
    (hst : s.armed t ∨ s.unarmed t) (hc : C t s = none) (hd : 0 < d)
    (hxd : Time.inRange (Now s + d)) :
    ∃ r s1, Reset t d s = .done r s1 ∧ Now s1 = Now s ∧ s1.armed t ∧
      (s1.timer t).deadline = Now s + d ∧ C t s1 = none ∧
      (s.WellFormed → (∀ u, s.armed u → C u s = none) →
        ∀ st : Duration, 0 ≤ st → Time.inRange (Now s + st) →
          ∃ s2, Advance st s1 = .done () s2 ∧
            (d ≤ st → C t s2 = some (Now s + d)) ∧ (st < d → C t s2 = none)) := by
  have ht : t < s.timers.length := by
    rcases hst with h | h
    · exact h.1
    · exact h.1
  have hA : Time.Add s.now d = s.now + d := Time.Add_exact s.now d hxd
  obtain ⟨s1, hrun, hnow, hlen, hself, hne, hact⟩ := Reset_arms t d s ht (by
    rw [hA]
    linarith)
  rw [hA] at hself
  have hmem : t ∈ s1.activeTimers := by
    rw [hact]
    rcases hst with h | h
    · rw [if_pos h.2.1]; exact h.2.2
    · rw [if_neg (by rw [h.2.1]; simp)]; exact List.mem_insert_self _ _
  have hsub : ∀ u ∈ s1.activeTimers, u = t ∨ u ∈ s.activeTimers := by
    intro u hu
    rw [hact] at hu
    by_cases ha : (s.timer t).active = true
    · rw [if_pos ha] at hu; exact Or.inr hu
    · rw [if_neg ha] at hu
      exact List.mem_insert_iff.1 hu
  have hc1 : (s1.timer t).c = none := by rw [hself]; exact hc
  refine ⟨_, s1, hrun, hnow, ⟨by omega, by rw [hself], hmem⟩, by rw [hself]; rfl, hc1, ?_⟩
  intro hwf hbuf st hst0 hxs
  have hB : Time.Add s1.now st = s.now + st := by
    rw [hnow]
    exact Time.Add_exact s.now st hxs
  obtain ⟨s2, hadv, _⟩ := Advance_done st s1 hst0
    (by
      intro u hu
      rw [hlen]
      rcases hsub u hu with h | h
      · exact h ▸ ht
      · exact hwf.1 u h)
    (by
      intro u hu _
      rcases hsub u hu with h | h
      · rw [h]; exact hc1
      · by_cases hut : u = t
        · rw [hut]; exact hc1
        · rw [hne u hut]
          exact hbuf u ⟨hwf.1 u h, (hwf.2 u (hwf.1 u h)).2 h, h⟩)
  refine ⟨s2, hadv, ?_, ?_⟩
  · intro hle
    have h1 := Advance_fires t st s1 s2 hadv hmem (by omega) (by
      rw [hself, hB]
      show s.now + d ≤ s.now + st
      linarith)
    rw [C, h1.2.1, hself]; rfl
  · intro hlt
    have h1 := Advance_untouched t st s1 (Or.inr (by
      rw [hself, hB]
      show s.now + st < s.now + d
      linarith))
    rw [hadv] at h1
    simp only [Exec.state] at h1
    rw [C, h1.1]; exact hc1

/-- Instance of C9, amended: on `sampleClock` (time 100) timer 0, armed for 105, is
reset with delay 50; `Advance(10)` then passes the old deadline without a fire. -/
theorem reset_reschedules_witness :
    (sampleClock.armed 0 ∨ sampleClock.unarmed 0) ∧ C 0 sampleClock = none ∧
      (0 : Duration) < 50 ∧ Time.inRange (Now sampleClock + 50) ∧
      ∃ r s1, Reset 0 50 sampleClock = .done r s1 ∧ s1.armed 0 ∧
        (s1.timer 0).deadline = 150 ∧
        ∃ s2, Advance 10 s1 = .done () s2 ∧ C 0 s2 = none :=
  have hwf : sampleClock.WellFormed := by decide
  have hbuf : ∀ u, sampleClock.armed u → C u sampleClock = none := by
    intro u hu
    have h2 : u < 2 := hu.1
    interval_cases u <;> rfl
  ⟨by decide, rfl, by decide, by decide,
    match reset_reschedules sampleClock 0 50 (by decide) rfl (by decide) (by decide) with
    | ⟨r, s1, h1, _, h3, h4, _, h6⟩ =>
      ⟨r, s1, h1, h3, h4,
        match h6 hwf hbuf 10 (by decide) (by decide) with
        | ⟨s2, h8, h9⟩ => ⟨s2, h8, h9.2 (by decide)⟩⟩⟩

/-- Counterexample to C10. On a new clock at the start of the last second of
`time.Time`, `NewTimer(1s)` has a positive delay but returns the timer unarmed, out of
`activeTimers`, with the pinned deadline `lastSecond` pending on its channel. -/
theorem newTimer_postcondition_counterexample :
    (0 : Duration) < 1000000000 ∧
      NewTimer 1000000000 (NewClock lastSecond) = .done 0 spentClock ∧
      spentClock.unarmed 0 ∧ C 0 spentClock = some lastSecond := by
  decide

/-- C10, amended. `NewTimer(d)` returns a new timer and leaves `now` unchanged. When
`now + d` is inside the range of `time.Time`: for `d > 0` the timer is armed and
registered with deadline `now + d` and an empty buffer; for `d <= 0` it has fired
during the call: it is unarmed, out of `activeTimers`, and `now + d` is pending on its
channel. -/
theorem newTimer_postcondition (s : Clock) (d : Duration) (hx : Time.inRange (Now s + d)) :
    ∃ t s1, NewTimer d s = .done t s1 ∧ Now s1 = Now s ∧ t = s.timers.length ∧
      (0 < d → s1.armed t ∧ (s1.timer t).deadline = Now s + d ∧ C t s1 = none) ∧
      (d ≤ 0 → s1.unarmed t ∧ C t s1 = some (Now s + d)) := by
  have hA : Time.Add s.now d = s.now + d := Time.Add_exact s.now d hx
  by_cases hd : 0 < d
  · obtain ⟨s1, hrun, hnow, hlen, hself, _, hact⟩ := NewTimer_arms d s (by
      rw [hA]
      linarith)
    rw [hA] at hself
    refine ⟨_, s1, hrun, hnow, rfl, fun _ => ⟨⟨by omega, by rw [hself], ?_⟩, by rw [hself]; rfl,
      by rw [C, hself]⟩, fun h => absurd hd (not_lt.mpr h)⟩
    rw [hact]
    exact List.mem_insert_self _ _
  · have hd1 : d ≤ 0 := not_lt.mp hd
    obtain ⟨s1, hrun, hnow, hlen, hself, _, hact⟩ := NewTimer_fires d s (by
      rw [hA]
      linarith)
    rw [hA] at hself
    refine ⟨_, s1, hrun, hnow, rfl, fun h => absurd h hd,
      fun _ => ⟨⟨by omega, by rw [hself], ?_⟩, by rw [C, hself]; rfl⟩⟩
    rw [hact]
    simp [List.mem_filter]

/-- Instance of C10, amended, on `sampleClock`: a timer with delay 0 fires during
`NewTimer`. -/
theorem newTimer_postcondition_witness :
    Time.inRange (Now sampleClock + 0) ∧
      ∃ t s1, NewTimer 0 sampleClock = .done t s1 ∧ Now s1 = 100 ∧ t = 2 ∧
        s1.unarmed t ∧ C t s1 = some 100 :=
  ⟨by decide,
    match newTimer_postcondition sampleClock 0 (by decide) with
    | ⟨t, s1, h1, h2, h3, _, h5⟩ => ⟨t, s1, h1, h2, h3, (h5 (by decide)).1, (h5 (by decide)).2⟩⟩

/-- C11. Firing can find the buffer full. After `NewTimer(0)` on a new clock the
notification is pending, and a `Reset(0)` before any receive runs `fire` on the full
buffer and is parked in the send. In `undrainedClock`, reached by `NewTimer(1)`,
`Advance(1)`, `Reset(1)`, the call `Advance(1)` is parked in the same way. -/
theorem fire_parks_on_full_buffer :
    (∃ t s1, NewTimer 0 (NewClock 100) = .done t s1 ∧ Reachable s1 ∧ C t s1 = some 100 ∧
      Reset t 0 s1 = .blocked (rearmed t 0 s1)) ∧
    Reachable undrainedClock ∧
    Advance 1 undrainedClock = .blocked { undrainedClock with now := 102 } :=
  ⟨⟨0, ⟨100, [], [{ c := some 100, deadline := 100, active := false }]⟩, by decide,
      Reachable.step (.newTimer 0) (Reachable.init 100) trivial (by decide), by decide,
      by decide⟩,
    undrainedClock_reachable, by decide⟩

/-- C12. In every state reached from `NewClock` by calls of `NewTimer`, `Advance`,
`Reset`, `Stop` (and receives from timer channels) that have returned, the registry
holds only timers created by the clock, and a timer created by the clock has its
`active` flag set exactly when it is a member of `activeTimers`. -/
theorem registry_invariant (s : Clock) (h : Reachable s) :
    (∀ t ∈ s.activeTimers, t < s.timers.length) ∧
      ∀ t, t < s.timers.length → ((s.timer t).active = true ↔ t ∈ s.activeTimers) :=
  (reachable_inv s h).1

/-- Instance of C12 on `undrainedClock`, whose only timer is armed and registered. -/
theorem registry_invariant_witness :
    Reachable undrainedClock ∧
      ((undrainedClock.timer 0).active = true ↔ 0 ∈ undrainedClock.activeTimers) :=
  ⟨undrainedClock_reachable,
    (registry_invariant undrainedClock undrainedClock_reachable).2 0 (by decide)⟩

/-- C13. `Stop()` on an existing timer returns and leaves the buffer of every timer
as it was; a notification that was pending before `Stop()` is the value received
from the channel after it, also when `Stop()` returns `false`. -/
theorem stop_does_not_drain (s : Clock) (t : Nat) (ht : t < s.timers.length) :
    ∃ r s1, Stop t s = .done r s1 ∧ (∀ u, C u s1 = C u s) ∧
      ∀ v, C t s = some v → (tryReceive t s1).1 = some v ∧
        (s.unarmed t → r = false) := by
  have hC : ∀ u, C u (stopNoLock t s).2 = C u s := by
    intro u
    by_cases hut : u = t
    · rw [hut, C, stopNoLock_timer_self t s ht]; rfl
    · rw [C, stopNoLock_timer_ne t u s hut]; rfl
  refine ⟨_, _, rfl, hC, fun v hv => ⟨?_, fun hu => hu.2.1⟩⟩
  show C t (stopNoLock t s).2 = some v
  rw [hC t, hv]

/-- Instance of C13: timer 0 of `sampleClock` has fired in `Advance(10)` and the
notification 105 is still pending; `Stop()` returns `false` and 105 is received
afterwards. -/
theorem stop_does_not_drain_witness :
    0 < (Advance 10 sampleClock).state.timers.length ∧
      ∃ r s1, Stop 0 (Advance 10 sampleClock).state = .done r s1 ∧ r = false ∧
        (tryReceive 0 s1).1 = some 105 :=
  ⟨by decide,
    match stop_does_not_drain (Advance 10 sampleClock).state 0 (by decide) with
    | ⟨r, s1, h1, _, h3⟩ =>
      ⟨r, s1, h1, (h3 105 (by decide)).2 (by decide), (h3 105 (by decide)).1⟩⟩

/-- Counterexample to C14. On a new clock at the start of the last second of
`time.Time`, a timer with delay 1s fires during `NewTimer` with the pinned deadline
`lastSecond`; the first round of `Advance(1s)`, receive, `Reset(1s)` receives
`lastSecond`, not the start time plus 1s. -/
theorem repeated_fire_reset_cycles_counterexample :
    (0 : Duration) < 1000000000 ∧
      NewTimer 1000000000 (NewClock lastSecond) = .done 0 spentClock ∧
      cycles 0 1000000000 1 spentClock = .done [some lastSecond] spentClock ∧
      lastSecond ≠ lastSecond + 1 * 1000000000 := by
  decide

/-- C14, amended. On `tmr = NewClock(start).NewTimer(d)` with `d > 0`, when `start`
and `start + (n + 1) * d`, the last deadline set, are inside the range of
`time.Time`: `n` rounds of `Advance(d)`, receive from `tmr.C()`, `tmr.Reset(d)` all
return; each round receives one value, the value of round `i` (counted from 1) is
`start + i * d`, and the buffer is empty after the last round. -/
theorem repeated_fire_reset_cycles (start : Time) (d : Duration) (n : Nat) (hd : 0 < d)
    (hx0 : Time.inRange start) (hx1 : Time.inRange (start + ((n : Int) + 1) * d)) :
    ∃ t s0 s1, NewTimer d (NewClock start) = .done t s0 ∧
      cycles t d n s0 =
        .done ((List.range n).map fun (i : Nat) => some (start + ((i : Int) + 1) * d)) s1 ∧
      Now s1 = start + (n : Int) * d ∧ C t s1 = none := by
  have h2 : ¬ d ≤ 0 := by linarith
  have hn : (0 : Int) ≤ (n : Int) := Int.ofNat_nonneg n
  have hnd : 0 ≤ (n : Int) * d := mul_nonneg hn (le_of_lt hd)
  have hxd : Time.inRange (start + d) :=
    Time.inRange_between start (start + ((n : Int) + 1) * d) (start + d) hx0 hx1
      (by linarith) (by linarith)
  refine ⟨0, ⟨start, [0], [{ c := none, deadline := start + d, active := true }]⟩, _, ?_,
    cycles_single d hd n start hx0 hx1, rfl, rfl⟩
  simp [NewTimer, NewClock, Reset, Clock.setTimer, Clock.timer, simulatedTimer.zero,
    shouldFire, Exec.bind, hd, h2, Time.Add_exact start d hxd]

/-- Instance of C14, amended: five rounds with `d = 10` from time 1000, as in the
test. -/
theorem repeated_fire_reset_cycles_witness :
    (0 : Duration) < 10 ∧ Time.inRange 1000 ∧ Time.inRange (1000 + (((5 : Nat) : Int) + 1) * 10) ∧
      ∃ t s0 s1, NewTimer 10 (NewClock 1000) = .done t s0 ∧
        cycles t 10 5 s0 = .done [some 1010, some 1020, some 1030, some 1040, some 1050] s1 ∧
        Now s1 = 1050 ∧ C t s1 = none :=
  ⟨by decide, by decide, by decide,
    repeated_fire_reset_cycles 1000 10 5 (by decide) (by decide) (by decide)⟩

/-- C15. A readable zero time is reported as not readable. When the value received from the channel is
the zero time, `TryRead` returns `false`, as it does after a timeout; `NewTimer(0)` on
`NewClock` of the zero time puts such a value on a timer channel. A non-zero value is
returned with `true`. -/
theorem tryRead_zero_time_reported_unreadable :
    TryRead (some 0) = (0, false) ∧ TryRead (some 0) = TryRead none ∧
      (∃ t s, NewTimer 0 (NewClock 0) = .done t s ∧ C t s = some 0 ∧
        TryRead (C t s) = (0, false)) ∧
      TryRead (some 5) = (5, true) :=
  ⟨by decide, by decide,
    ⟨0, ⟨0, [], [{ c := some 0, deadline := 0, active := false }]⟩, by decide, by decide,
      by decide⟩,
    by decide⟩

/-- C17. In every state reached from `NewClock` by calls that have returned, every
timer in `activeTimers` has a deadline after the current time of the clock, and
`Advance(0)` returns with the state unchanged. -/
theorem no_overdue_armed_timer (s : Clock) (h : Reachable s) :
    (∀ t ∈ s.activeTimers, Now s < (s.timer t).deadline) ∧ Advance 0 s = .done () s :=
  ⟨(reachable_inv s h).2, Advance_zero s (reachable_inv s h).1.1 (reachable_inv s h).2⟩

/-- Instance of C17 on `undrainedClock` (time 101, timer 0 registered for 102). -/
theorem no_overdue_armed_timer_witness :
    Reachable undrainedClock ∧ Now undrainedClock < (undrainedClock.timer 0).deadline ∧
      Advance 0 undrainedClock = .done () undrainedClock :=
  ⟨undrainedClock_reachable,
    (no_overdue_armed_timer undrainedClock undrainedClock_reachable).1 0 (by decide),
    (no_overdue_armed_timer undrainedClock undrainedClock_reachable).2⟩

/-- Counterexample to C18. On a new clock at the start of the last second of
`time.Time` with a timer armed for half a second later (`halfSecondClock`),
`Advance(0.9s)` fires the timer and `Advance(0.2s)` then carries into a second that
does not exist, while the single call `Advance(1.1s)` is pinned to 0.1s into the last
second and leaves the timer armed: the two final states differ. -/
theorem advance_additive_counterexample :
    NewTimer 500000000 (NewClock lastSecond) = .done 0 halfSecondClock ∧
      halfSecondClock.WellFormed ∧ halfSecondClock.armed 0 ∧ C 0 halfSecondClock = none ∧
      ((Advance 900000000 halfSecondClock).bind fun _ s1 => Advance 200000000 s1) =
        .done ()
          { now := lastSecond + 100000000, activeTimers := [],
            timers := [{ c := some (lastSecond + 500000000),
                         deadline := lastSecond + 500000000, active := false }] } ∧
      Advance (900000000 + 200000000) halfSecondClock =
        .done () { halfSecondClock with now := lastSecond + 100000000 } := by
  decide

/-- C18, amended. On a clock whose armed timers all have an empty buffer, when `now`
and `now + a + b` are inside the range of `time.Time`: `Advance(a)` followed by
`Advance(b)`, with `a, b >= 0`, returns in the state in which the single call
`Advance(a + b)` returns: the same `now`, the same `activeTimers` and the same flag,
deadline and buffer of every timer. -/
theorem advance_additive (s : Clock) (a b : Duration) (hwf : s.WellFormed)
    (hbuf : ∀ t, s.armed t → C t s = none) (ha : 0 ≤ a) (hb : 0 ≤ b)
    (hx0 : Time.inRange (Now s)) (hx1 : Time.inRange (Now s + (a + b))) :
    ∃ s1 s2, Advance a s = .done () s1 ∧ Advance b s1 = .done () s2 ∧
      Advance (a + b) s = .done () s2 :=
  Advance_add a b s ha hb (fun u hu =>
    ⟨hwf.1 u hu, hbuf u ⟨hwf.1 u hu, (hwf.2 u (hwf.1 u hu)).2 hu, hu⟩⟩) hx0 hx1

/-- Instance of C18, amended, on `sampleClock`: `Advance(10)` then `Advance(15)`
against `Advance(25)`, which fires both timers. -/
theorem advance_additive_witness :
    sampleClock.WellFormed ∧ (∀ t, sampleClock.armed t → C t sampleClock = none) ∧
      (0 : Duration) ≤ 10 ∧ (0 : Duration) ≤ 15 ∧ Time.inRange (Now sampleClock) ∧
      Time.inRange (Now sampleClock + (10 + 15)) ∧
      ∃ s1 s2, Advance 10 sampleClock = .done () s1 ∧ Advance 15 s1 = .done () s2 ∧
        Advance (10 + 15) sampleClock = .done () s2 :=
  have hwf : sampleClock.WellFormed := by decide
  have hbuf : ∀ t, sampleClock.armed t → C t sampleClock = none := by
    intro t ht
    have h2 : t < 2 := ht.1
    interval_cases t <;> rfl
  ⟨hwf, hbuf, by decide, by decide, by decide, by decide,
    advance_additive sampleClock 10 15 hwf hbuf (by decide) (by decide) (by decide)
      (by decide)⟩

/-- C19. `t.Reset(d)` and `t.Stop()` leave `now` unchanged and leave every timer
other than `t` as it was: same deadline, flag and buffer, and the same membership in
`activeTimers`. This holds for the state in which the call ends, in particular
whenever the call returns; `Stop()` always returns. -/
theorem timer_operations_local (s : Clock) (t u : Nat) (d : Duration) (hu : u ≠ t) :
    ((Reset t d s).state.now = s.now ∧ (Reset t d s).state.timer u = s.timer u ∧
        (u ∈ (Reset t d s).state.activeTimers ↔ u ∈ s.activeTimers)) ∧
      (∀ r s1, Reset t d s = .done r s1 →
        Now s1 = Now s ∧ s1.timer u = s.timer u ∧
          (u ∈ s1.activeTimers ↔ u ∈ s.activeTimers)) ∧
      ∃ r s1, Stop t s = .done r s1 ∧ Now s1 = Now s ∧ s1.timer u = s.timer u ∧
        (u ∈ s1.activeTimers ↔ u ∈ s.activeTimers) := by
  have h := Reset_state_frame t d s
  refine ⟨⟨h.1, h.2 u hu⟩, ?_, ?_⟩
  · intro r s1 hrun
    rw [hrun] at h
    exact ⟨h.1, h.2 u hu⟩
  · refine ⟨_, _, rfl, rfl, stopNoLock_timer_ne t u s hu, ?_⟩
    simp [List.mem_filter, hu]

/-- Instance of C19 on `sampleClock`: `Reset(-3)` and `Stop()` on timer 0 leave timer
1 armed for 120. -/
theorem timer_operations_local_witness :
    (1 : Nat) ≠ 0 ∧
      (∃ r s1, Reset 0 (-3) sampleClock = .done r s1 ∧ Now s1 = 100 ∧
        s1.timer 1 = sampleClock.timer 1 ∧ 1 ∈ s1.activeTimers) ∧
      ∃ r s1, Stop 0 sampleClock = .done r s1 ∧ Now s1 = 100 ∧
        s1.timer 1 = sampleClock.timer 1 ∧ 1 ∈ s1.activeTimers :=
  ⟨by decide,
    ⟨true, (Reset 0 (-3) sampleClock).state, by decide,
      ((timer_operations_local sampleClock 0 1 (-3) (by decide)).2.1 true
        (Reset 0 (-3) sampleClock).state (by decide)).1,
      ((timer_operations_local sampleClock 0 1 (-3) (by decide)).2.1 true
        (Reset 0 (-3) sampleClock).state (by decide)).2.1,
      ((timer_operations_local sampleClock 0 1 (-3) (by decide)).2.1 true
        (Reset 0 (-3) sampleClock).state (by decide)).2.2.2 (by decide)⟩,
    match (timer_operations_local sampleClock 0 1 0 (by decide)).2.2 with
    | ⟨r, s1, h1, h2, h3, h4⟩ => ⟨r, s1, h1, h2, h3, h4.2 (by decide)⟩⟩

end Simulated
